import Mathlib

/-!
# Verification of the binary RPC transport and OTP registration service

Shallow embedding of the user-identity microservice repository:

* the server-side binary frame codec and per-connection reader
  (`internal/delivery/messaging/tcpHandler.go`),
* the gateway-side client: `CircularBuffer`, response parsing and request
  framing (`api-gateway/src/services/service-client.ts`),
* OTP generation and verification (two generations of `otpService.go`),
* the Redis key-value wrappers of both service generations,
* the `send_otp` / `verify_otp` / `get_profile` orchestration
  (`internal/usecase/user.go` and the `user-service-new` services layer),
* the fixed-window `RateLimiter`.

Bytes are modelled as `Nat` (a byte position holds a value `< 256`;
little-endian 32-bit fields are encoded with explicit `% 256` splitting).
Byte strings are `List Nat`.  Go / TypeScript maps with string keys are
association lists.  A while loop is modelled with explicit fuel, one unit
per iteration; every iteration of the loops modelled here consumes at
least one byte of the buffer, so the buffer length bounds the fuel.
-/

/-! ## Wire constants (`tcpHandler.go` `const` block, `service-client.ts`) -/

def magicByte1 : Nat := 0x55
def magicByte2 : Nat := 0x57
def protocolVersion : Nat := 0x01
def headerSize : Nat := 2
def versionSize : Nat := 1
def uuidSize : Nat := 16
def methodLenSize : Nat := 1
def contentLenSize : Nat := 4

/-- Constant `maxBufferSize = 10 * 1024 * 1024` (server) and
`MAX_BUFFER_SIZE` (client) are the same 10 MiB constant. -/
def maxBufferSize : Nat := 10 * 1024 * 1024

/-! ## Little-endian 32-bit length fields -/

/-- Go `binary.LittleEndian.PutUint32` / JS `buffer.writeUInt32LE`: the four bytes
of `n` in little-endian order. -/
def le32 (n : Nat) : List Nat :=
  [n % 256, n / 256 % 256, n / 65536 % 256, n / 16777216 % 256]

/-- Go `binary.LittleEndian.Uint32` / JS `readUInt32LE` over four bytes. -/
def readLE32 (b0 b1 b2 b3 : Nat) : Nat :=
  b0 + 256 * b1 + 65536 * b2 + 16777216 * b3

theorem le32_length (n : Nat) : (le32 n).length = 4 := rfl

/-- Round trip of the length field: decoding the four emitted bytes gives
back any value that fits in 32 bits. -/
theorem readLE32_le32 (n : Nat) (h : n < 4294967296) :
    readLE32 (n % 256) (n / 256 % 256) (n / 65536 % 256) (n / 16777216 % 256) = n := by
  unfold readLE32
  omega

/-! ## Server-side frame scanning (`checkMessageComplete`)

`checkMessageComplete` inspects the front of the per-connection
accumulator.  It reports `incomplete` when more bytes are needed,
`complete totalSize` when a whole frame is present, and a protocol error
on magic-byte or version mismatch. -/

deriving instance DecidableEq for Except

inductive CheckMessageResult
  | incomplete
  | complete (totalSize : Nat)
  | protoError (msg : String)
  deriving DecidableEq, Repr

def checkMessageComplete (buffer : List Nat) : CheckMessageResult :=
  -- minimum header: magic + version + uuid + method-len
  if buffer.length < headerSize + versionSize + uuidSize + methodLenSize then .incomplete
  else if buffer.getD 0 0 ≠ magicByte1 ∨ buffer.getD 1 0 ≠ magicByte2 then
    .protoError "invalid magic bytes"
  else if buffer.getD 2 0 ≠ protocolVersion then
    let v := buffer.getD 2 0
    .protoError s!"unsupported protocol version: {v}"
  else
    let methodLen := buffer.getD (headerSize + versionSize + uuidSize) 0
    -- offset now past the method-length byte
    if buffer.length < headerSize + versionSize + uuidSize + methodLenSize + methodLen then
      .incomplete
    else if buffer.length <
        headerSize + versionSize + uuidSize + methodLenSize + methodLen + contentLenSize then
      .incomplete
    else
      let off := headerSize + versionSize + uuidSize + methodLenSize + methodLen
      let contentLen := readLE32 (buffer.getD off 0) (buffer.getD (off+1) 0)
        (buffer.getD (off+2) 0) (buffer.getD (off+3) 0)
      let totalSize := off + contentLenSize + contentLen
      if buffer.length < totalSize then .incomplete
      else .complete totalSize

/-! ## Server per-connection reader loop (`handleConnection`)

After appending freshly read bytes the reader extracts as many complete
frames as the accumulator holds.  A protocol error from
`checkMessageComplete` makes `handleConnection` `return`, which closes the
connection (`defer conn.Close()`): the server never resynchronises.
Admission control (rate limit / overload / full queue) only decides where
an extracted frame goes, never how the buffer is parsed, so the model
collects every extracted frame. -/

inductive ServerScan
  /-- loop left the remaining bytes in the accumulator and keeps reading -/
  | keep (frames : List (List Nat)) (remainder : List Nat)
  /-- case where `checkMessageComplete` returned an error: the reader returns and the
  connection is closed -/
  | dropped (frames : List (List Nat))
  deriving DecidableEq, Repr

/-- One round of the `for processed < len(buffer)` loop, with fuel. -/
def serverScanLoop : Nat → List Nat → List (List Nat) → ServerScan
  | 0, buffer, acc => .keep acc.reverse buffer
  | fuel + 1, buffer, acc =>
    match checkMessageComplete buffer with
    | .protoError _ => .dropped acc.reverse
    | .incomplete => .keep acc.reverse buffer
    | .complete msgSize =>
      serverScanLoop fuel (buffer.drop msgSize) (buffer.take msgSize :: acc)

/-- Frame extraction performed by `handleConnection` on an accumulator. -/
def serverScan (buffer : List Nat) : ServerScan :=
  serverScanLoop (buffer.length + 1) buffer []

/-! ## Server response framing (`createBinaryResponse`)

The response layout is magic, version, request id, **content length**,
content: there is no method-length byte and no method name.  The
little-endian content length starts at offset 19. -/

def createBinaryResponse (requestID jsonData : List Nat) : List Nat :=
  [magicByte1, magicByte2, protocolVersion] ++ requestID ++ le32 jsonData.length ++ jsonData

/-! ## Server dispatch (`handleBinaryMessage`)

The worker re-parses the frame and dispatches on the method name.  The
`switch` in `handleBinaryMessage` has exactly three cases — `register`,
`login` and `ping` — and a default returning `unknown method: <m>`. -/

/-- Go `string(bytes)` for the ASCII method names used on this wire. -/
def asciiDecode (bytes : List Nat) : String :=
  String.mk (bytes.map Char.ofNat)

inductive ServerDispatch
  | register (content : List Nat)
  | login (content : List Nat)
  | ping
  deriving DecidableEq, Repr

/-- The `switch method` statement of `handleBinaryMessage`: three cases
and a default producing `unknown method: <m>`. -/
def dispatchMethod (method : String) (content : List Nat) : Except String ServerDispatch :=
  if method = "register" then .ok (.register content)
  else if method = "login" then .ok (.login content)
  else if method = "ping" then .ok .ping
  else .error s!"unknown method: {method}"

/-- Result of `handleBinaryMessage`: the echoed request id together with
either the dispatched handler or the error the worker frames back. -/
def handleBinaryMessage (data : List Nat) : List Nat × Except String ServerDispatch :=
  let minSize := headerSize + versionSize + uuidSize + methodLenSize
  if data.length < minSize then
    let n := data.length
    ([], .error s!"message too short: got {n} bytes, expected at least {minSize} bytes")
  else
    let requestID := (data.drop (headerSize + versionSize)).take uuidSize
    let methodLen := data.getD (headerSize + versionSize + uuidSize) 0
    let method := asciiDecode ((data.drop minSize).take methodLen)
    let contentOff := minSize + methodLen
    let contentLen := readLE32 (data.getD contentOff 0) (data.getD (contentOff+1) 0)
      (data.getD (contentOff+2) 0) (data.getD (contentOff+3) 0)
    let content := (data.drop (contentOff + contentLenSize)).take contentLen
    (requestID, dispatchMethod method content)

/-! ## Client response parsing (`processResponseBuffer`, `service-client.ts`)

The client accumulates socket bytes in a `CircularBuffer` and repeatedly
extracts response frames.  The parser below works on the buffer's
contents: `peek n` reads the first `n` bytes (`List.take`), `skip n` /
`read n` consume them (`List.drop`), `clear()` empties the buffer, and
`findPattern(MAGIC_BYTES)` locates the first adjacent magic-byte pair.
The correspondence of the `CircularBuffer` operations with these
list operations is proved in the CircularBuffer section below. -/

/-- The `findPattern(MAGIC_BYTES)` search on the buffer contents: offset of the first
adjacent `0x55 0x57` pair, `none` when there is none (the source returns
`-1`). -/
def findPattern2 : List Nat → Option Nat
  | a :: b :: rest =>
    if a = magicByte1 ∧ b = magicByte2 then some 0
    else (findPattern2 (b :: rest)).map (· + 1)
  | _ => none

/-- Constant `MIN_RESPONSE_SIZE = 23`: magic (2) + version (1) + UUID (16) +
content length (4).  A response frame has no method-length byte. -/
def MIN_RESPONSE_SIZE : Nat := 23

/-- The `while` loop of `processResponseBuffer`, one fuel unit per
iteration.  Accumulates `(request-id, content)` pairs handed to
`handleResponse` and returns them with the final buffer contents. -/
def clientParseLoop : Nat → List Nat → List (List Nat × List Nat) →
    List (List Nat × List Nat) × List Nat
  | 0, buf, acc => (acc.reverse, buf)
  | fuel + 1, buf, acc =>
    if buf.length < MIN_RESPONSE_SIZE then (acc.reverse, buf)
    else if buf.getD 0 0 ≠ magicByte1 ∨ buf.getD 1 0 ≠ magicByte2 then
      match findPattern2 buf with
      | none => (acc.reverse, [])                       -- responseBuffer.clear()
      | some i => clientParseLoop fuel (buf.drop i) acc -- skip(magicIndex)
    else if buf.length < 3 then (acc.reverse, buf)      -- subsumed guard, kept from source
    else if buf.getD 2 0 ≠ protocolVersion then
      clientParseLoop fuel (buf.drop 1) acc             -- version mismatch: skip(1)
    else if buf.length < 23 then (acc.reverse, buf)     -- subsumed guard, kept from source
    else
      let requestId := (buf.drop 3).take 16
      let contentLength := readLE32 (buf.getD 19 0) (buf.getD 20 0)
        (buf.getD 21 0) (buf.getD 22 0)
      if contentLength > maxBufferSize then
        clientParseLoop fuel (buf.drop 3) acc           -- excessive length: skip(3)
      else if buf.length < 23 + contentLength then (acc.reverse, buf)
      else
        let content := (buf.drop 23).take contentLength
        clientParseLoop fuel (buf.drop (23 + contentLength)) ((requestId, content) :: acc)

/-- Every iteration of the loop consumes at least one buffer byte, so the
buffer length is enough fuel. -/
def processResponseBuffer (buf : List Nat) : List (List Nat × List Nat) × List Nat :=
  clientParseLoop (buf.length + 1) buf []

/-! ## Client request framing (`createBinaryRequest`) -/

/-- Request frames written by the client: magic, version, request id,
method-length byte, method bytes, content length, payload.  A JS `Buffer`
element assignment truncates to a byte, hence the `% 256` on the
method length. -/
def createBinaryRequest (method payload requestId : List Nat) : List Nat :=
  [magicByte1, magicByte2, protocolVersion] ++ requestId ++
    [method.length % 256] ++ method ++ le32 payload.length ++ payload

/-! ## List indexing helpers -/

theorem getD_drop (l : List Nat) (n k d : Nat) :
    (l.drop n).getD k d = l.getD (n + k) d := by
  induction n generalizing l with
  | zero => simp
  | succ m ih =>
    cases l with
    | nil => simp
    | cons a t =>
      simp only [List.drop_succ_cons, ih]
      have : m + 1 + k = (m + k) + 1 := by omega
      rw [this]
      rfl

theorem take_append_left (l₁ l₂ : List Nat) (h : l₁.length = n) :
    (l₁ ++ l₂).take n = l₁ := by
  subst h; exact List.take_left l₁ l₂

theorem drop_append_left (l₁ l₂ : List Nat) (h : l₁.length = n) :
    (l₁ ++ l₂).drop n = l₂ := by
  subst h; exact List.drop_left l₁ l₂

/-! ## Request frames round-trip through the server parser -/

/-- A request frame built by the client carries the method-length byte and
the method name, and the server parser recovers the request id, the method
and the payload exactly. -/
theorem handleBinaryMessage_createBinaryRequest (method payload rid : List Nat)
    (hrid : rid.length = 16) (hm : method.length < 256)
    (hp : payload.length < 4294967296) :
    handleBinaryMessage (createBinaryRequest method payload rid) =
      (rid, dispatchMethod (asciiDecode method) payload) := by
  have hml : method.length % 256 = method.length := Nat.mod_eq_of_lt hm
  have hflat : createBinaryRequest method payload rid =
      [magicByte1, magicByte2, protocolVersion] ++
        (rid ++ ([method.length] ++ (method ++ (le32 payload.length ++ payload)))) := by
    simp [createBinaryRequest, hml, List.append_assoc]
  set frame := createBinaryRequest method payload rid with hframe
  have hd3 : frame.drop 3 =
      rid ++ ([method.length] ++ (method ++ (le32 payload.length ++ payload))) := by
    rw [hflat]; exact drop_append_left _ _ rfl
  have hd19 : frame.drop 19 =
      [method.length] ++ (method ++ (le32 payload.length ++ payload)) := by
    rw [show (19:Nat) = 3 + 16 from rfl, ← List.drop_drop, hd3]
    exact drop_append_left _ _ hrid
  have hd20 : frame.drop 20 = method ++ (le32 payload.length ++ payload) := by
    rw [show (20:Nat) = 19 + 1 from rfl, ← List.drop_drop, hd19]
    exact drop_append_left _ _ rfl
  have hdcontent : frame.drop (20 + method.length) = le32 payload.length ++ payload := by
    rw [← List.drop_drop, hd20]
    exact drop_append_left _ _ rfl
  have hlen : frame.length = 24 + method.length + payload.length := by
    rw [hflat]; simp [le32]; omega
  have hgetD19 : frame.getD 19 0 = method.length := by
    have := getD_drop frame 19 0 0
    simp only [Nat.add_zero] at this
    rw [← this, hd19]; rfl
  have hgetDlen : ∀ i : Nat, i < 4 →
      frame.getD (20 + method.length + i) 0 = (le32 payload.length).getD i 0 := by
    intro i hi
    have := getD_drop frame (20 + method.length) i 0
    rw [← this, hdcontent]
    have : i < (le32 payload.length).length := by rw [le32_length]; omega
    rw [List.getD_append _ _ _ _ this]
  have hmethod : (frame.drop 20).take method.length = method := by
    rw [hd20]; exact take_append_left _ _ rfl
  have hrid' : (frame.drop 3).take 16 = rid := by
    rw [hd3]; exact take_append_left _ _ hrid
  have hpayload : frame.drop (20 + method.length + 4) = payload := by
    rw [← List.drop_drop, hdcontent]
    exact drop_append_left _ _ (le32_length payload.length)
  -- now unfold the parser
  show handleBinaryMessage frame = _
  unfold handleBinaryMessage
  simp only [headerSize, versionSize, uuidSize, methodLenSize, contentLenSize]
  rw [if_neg (by omega : ¬ frame.length < 2 + 1 + 16 + 1)]
  simp only [show (2:Nat) + 1 = 3 from rfl, show (2:Nat) + 1 + 16 = 19 from rfl,
    show (2:Nat) + 1 + 16 + 1 = 20 from rfl]
  rw [hgetD19, hrid', hmethod]
  have e0 := hgetDlen 0 (by omega)
  have e1 := hgetDlen 1 (by omega)
  have e2 := hgetDlen 2 (by omega)
  have e3 := hgetDlen 3 (by omega)
  simp only [Nat.add_zero] at e0
  rw [e0, e1, e2, e3]
  have hread : readLE32 ((le32 payload.length).getD 0 0) ((le32 payload.length).getD 1 0)
      ((le32 payload.length).getD 2 0) ((le32 payload.length).getD 3 0) = payload.length := by
    simp only [le32, List.getD]
    exact readLE32_le32 payload.length hp
  rw [hread, hpayload, List.take_length]

/-! ## Client parser lemmas -/

/-- Fewer than `MIN_RESPONSE_SIZE` buffered bytes: the parser waits. -/
theorem clientParseLoop_short (buf : List Nat) (h : buf.length < MIN_RESPONSE_SIZE) :
    ∀ fuel acc, clientParseLoop fuel buf acc = (acc.reverse, buf) := by
  intro fuel acc
  cases fuel with
  | zero => rfl
  | succ f => unfold clientParseLoop; rw [if_pos h]

/-- A server response frame at the front of the buffer is consumed whole:
its request id and payload are handed to `handleResponse` and parsing
continues on the remaining bytes. -/
theorem clientParseLoop_response_step (f : Nat) (rid json rest : List Nat)
    (acc : List (List Nat × List Nat))
    (hrid : rid.length = 16) (hjson : json.length ≤ maxBufferSize) :
    clientParseLoop (f + 1) (createBinaryResponse rid json ++ rest) acc =
      clientParseLoop f rest ((rid, json) :: acc) := by
  set buf := createBinaryResponse rid json ++ rest with hbuf
  have hflat : buf = magicByte1 :: magicByte2 :: protocolVersion ::
      (rid ++ (le32 json.length ++ (json ++ rest))) := by
    simp [hbuf, createBinaryResponse, List.append_assoc]
  have hlen : buf.length = 23 + json.length + rest.length := by
    rw [hflat]; simp [le32, hrid]; omega
  have hd3 : buf.drop 3 = rid ++ (le32 json.length ++ (json ++ rest)) := by
    rw [hflat]; rfl
  have hd19 : buf.drop 19 = le32 json.length ++ (json ++ rest) := by
    rw [show (19:Nat) = 3 + 16 from rfl, ← List.drop_drop, hd3]
    exact drop_append_left _ _ hrid
  have hd23 : buf.drop 23 = json ++ rest := by
    rw [show (23:Nat) = 19 + 4 from rfl, ← List.drop_drop, hd19]
    exact drop_append_left _ _ (le32_length json.length)
  have hrest : buf.drop (23 + json.length) = rest := by
    rw [← List.drop_drop, hd23]
    exact drop_append_left _ _ rfl
  have hg0 : buf.getD 0 0 = magicByte1 := by rw [hflat]; rfl
  have hg1 : buf.getD 1 0 = magicByte2 := by rw [hflat]; rfl
  have hg2 : buf.getD 2 0 = protocolVersion := by rw [hflat]; rfl
  have hgetDlen : ∀ i : Nat, i < 4 →
      buf.getD (19 + i) 0 = (le32 json.length).getD i 0 := by
    intro i hi
    have h1 := getD_drop buf 19 i 0
    rw [← h1, hd19]
    have h2 : i < (le32 json.length).length := by rw [le32_length]; omega
    rw [List.getD_append _ _ _ _ h2]
  have hjson32 : json.length < 4294967296 := by
    have : maxBufferSize < 4294967296 := by decide
    omega
  have e0 : buf.getD 19 0 = (le32 json.length).getD 0 0 := by
    have := hgetDlen 0 (by omega); simpa using this
  have e1 : buf.getD 20 0 = (le32 json.length).getD 1 0 := hgetDlen 1 (by omega)
  have e2 : buf.getD 21 0 = (le32 json.length).getD 2 0 := hgetDlen 2 (by omega)
  have e3 : buf.getD 22 0 = (le32 json.length).getD 3 0 := hgetDlen 3 (by omega)
  have hread : readLE32 (buf.getD 19 0) (buf.getD 20 0) (buf.getD 21 0) (buf.getD 22 0)
      = json.length := by
    rw [e0, e1, e2, e3]
    simp only [le32, List.getD]
    exact readLE32_le32 json.length hjson32
  have hridtake : (buf.drop 3).take 16 = rid := by
    rw [hd3]; exact take_append_left _ _ hrid
  have hjtake : (buf.drop 23).take json.length = json := by
    rw [hd23]; exact take_append_left _ _ rfl
  conv_lhs => unfold clientParseLoop
  rw [if_neg (by rw [hlen]; simp only [MIN_RESPONSE_SIZE]; omega)]
  rw [if_neg (by rw [hg0, hg1]; simp)]
  rw [if_neg (by rw [hlen]; omega)]
  rw [if_neg (by rw [hg2]; simp)]
  rw [if_neg (by rw [hlen]; omega)]
  simp only []
  rw [hread]
  rw [if_neg (by omega)]
  rw [if_neg (by rw [hlen]; omega)]
  rw [hridtake, hjtake, hrest]

/-- If a buffer holds no magic-byte pair, appending bytes that start with
the pair puts the first match exactly at the old length. -/
theorem findPattern2_append (g tail : List Nat) (hg : findPattern2 g = none) :
    findPattern2 (g ++ (magicByte1 :: magicByte2 :: tail)) = some g.length := by
  induction g with
  | nil => simp [findPattern2]
  | cons a g ih =>
    cases g with
    | nil =>
      show findPattern2 (a :: magicByte1 :: magicByte2 :: tail) = some 1
      unfold findPattern2
      rw [if_neg (by simp [magicByte1, magicByte2])]
      unfold findPattern2
      rw [if_pos ⟨rfl, rfl⟩]
      rfl
    | cons b g' =>
      have hsplit : ¬(a = magicByte1 ∧ b = magicByte2) ∧ findPattern2 (b :: g') = none := by
        by_cases hc : a = magicByte1 ∧ b = magicByte2
        · exfalso
          unfold findPattern2 at hg
          rw [if_pos hc] at hg
          exact Option.noConfusion hg
        · constructor
          · exact hc
          · unfold findPattern2 at hg
            rw [if_neg hc] at hg
            exact Option.map_eq_none'.mp hg
      show findPattern2 (a :: b :: (g' ++ (magicByte1 :: magicByte2 :: tail))) = _
      unfold findPattern2
      rw [if_neg hsplit.1]
      have := ih hsplit.2
      rw [show (b :: g') ++ (magicByte1 :: magicByte2 :: tail) =
        b :: (g' ++ (magicByte1 :: magicByte2 :: tail)) from rfl] at this
      rw [this]
      rfl

/-- A buffer without any magic pair fails the front magic check
(provided it has at least two bytes). -/
theorem front_mismatch_of_no_pair (g : List Nat) (tail : List Nat)
    (hg : findPattern2 g = none) (hne : g ≠ []) :
    (g ++ (magicByte1 :: magicByte2 :: tail)).getD 0 0 ≠ magicByte1 ∨
      (g ++ (magicByte1 :: magicByte2 :: tail)).getD 1 0 ≠ magicByte2 := by
  cases g with
  | nil => exact absurd rfl hne
  | cons a g' =>
    cases g' with
    | nil =>
      -- second byte read is the first magic byte of the appended frame
      right
      show magicByte1 ≠ magicByte2
      decide
    | cons b g'' =>
      by_cases hc : a = magicByte1 ∧ b = magicByte2
      · exfalso
        unfold findPattern2 at hg
        rw [if_pos hc] at hg
        exact Option.noConfusion hg
      · rw [Decidable.not_and_iff_or_not] at hc
        cases hc with
        | inl h => left; exact h
        | inr h => right; exact h

/-- Resynchronisation: garbage containing no magic pair before a valid
response frame is skipped via `findPattern`, and the frame parses. -/
theorem processResponseBuffer_resync (g rid json : List Nat)
    (hg : findPattern2 g = none) (hne : g ≠ [])
    (hrid : rid.length = 16) (hjson : json.length ≤ maxBufferSize) :
    processResponseBuffer (g ++ createBinaryResponse rid json) = ([(rid, json)], []) := by
  set buf := g ++ createBinaryResponse rid json with hbuf
  have hrespflat : createBinaryResponse rid json =
      magicByte1 :: magicByte2 :: (protocolVersion :: (rid ++ (le32 json.length ++ json))) := by
    simp [createBinaryResponse, List.append_assoc]
  have hglen : 1 ≤ g.length := by
    cases g with
    | nil => exact absurd rfl hne
    | cons a t => simp
  have hresplen : (createBinaryResponse rid json).length = 23 + json.length := by
    rw [hrespflat]; simp [le32, hrid]; omega
  have hlen : buf.length = g.length + (23 + json.length) := by
    rw [hbuf]; simp [hresplen]
  have hfind : findPattern2 buf = some g.length := by
    rw [hbuf, hrespflat]
    exact findPattern2_append g _ hg
  have hfront := front_mismatch_of_no_pair g
    (protocolVersion :: (rid ++ (le32 json.length ++ json))) hg hne
  rw [← hrespflat] at hfront
  have hdropg : buf.drop g.length = createBinaryResponse rid json := by
    rw [hbuf]; exact drop_append_left _ _ rfl
  show clientParseLoop (buf.length + 1) buf [] = ([(rid, json)], [])
  conv_lhs => unfold clientParseLoop
  rw [if_neg (by rw [hlen]; simp only [MIN_RESPONSE_SIZE]; omega)]
  rw [if_pos hfront, hfind]
  simp only [hdropg]
  have hstep : ∀ k : Nat, clientParseLoop (k + 1) (createBinaryResponse rid json) [] =
      clientParseLoop k [] [(rid, json)] := by
    intro k
    have := clientParseLoop_response_step k rid json [] [] hrid hjson
    simpa using this
  have hfuel : buf.length = (buf.length - 1) + 1 := by omega
  rw [hfuel, hstep]
  rw [clientParseLoop_short [] (by simp [MIN_RESPONSE_SIZE])]
  rfl

/-- A valid magic pair with a wrong version byte at the front makes the
parser skip exactly one byte — the source's `skip(1)` in the version
branch — given enough buffered bytes to enter the loop. -/
theorem clientParseLoop_version_skip (f v : Nat) (rest : List Nat)
    (acc : List (List Nat × List Nat))
    (hv : v ≠ protocolVersion) (hlen : 20 ≤ rest.length) :
    clientParseLoop (f + 1) (magicByte1 :: magicByte2 :: v :: rest) acc =
      clientParseLoop f (magicByte2 :: v :: rest) acc := by
  conv_lhs => unfold clientParseLoop
  rw [if_neg (by simp only [List.length_cons, MIN_RESPONSE_SIZE]; omega)]
  rw [if_neg (by rintro (h | h) <;> exact h rfl)]
  rw [if_neg (by simp only [List.length_cons]; omega)]
  rw [if_pos (by simp only [List.getD_cons_succ, List.getD_cons_zero]; exact hv)]
  rfl

/-- Version-mismatch resynchronisation: on a front with valid magic bytes
but a wrong version byte the parser skips one byte, the next iteration's
magic check then fails (the buffer now starts with `0x57`) and
`findPattern` skips whatever corrupt bytes remain, so a following valid
response frame parses. -/
theorem processResponseBuffer_version_resync (v : Nat) (g rid json : List Nat)
    (hv : v ≠ protocolVersion)
    (hg : findPattern2 (magicByte2 :: v :: g) = none)
    (hrid : rid.length = 16) (hjson : json.length ≤ maxBufferSize) :
    processResponseBuffer ((magicByte1 :: magicByte2 :: v :: g) ++
      createBinaryResponse rid json) = ([(rid, json)], []) := by
  have hresplen : (createBinaryResponse rid json).length = 23 + json.length := by
    simp [createBinaryResponse, le32, hrid]; omega
  have hassoc : (magicByte1 :: magicByte2 :: v :: g) ++ createBinaryResponse rid json
      = magicByte1 :: magicByte2 :: v :: (g ++ createBinaryResponse rid json) := rfl
  rw [hassoc]
  have hrestlen : 20 ≤ (g ++ createBinaryResponse rid json).length := by
    simp [hresplen]; omega
  show clientParseLoop
      ((magicByte1 :: magicByte2 :: v :: (g ++ createBinaryResponse rid json)).length + 1)
      (magicByte1 :: magicByte2 :: v :: (g ++ createBinaryResponse rid json)) []
      = ([(rid, json)], [])
  rw [clientParseLoop_version_skip _ v _ [] hv hrestlen]
  have hfuel : (magicByte1 :: magicByte2 :: v :: (g ++ createBinaryResponse rid json)).length
      = ((magicByte2 :: v :: g) ++ createBinaryResponse rid json).length + 1 := by
    simp
  rw [hfuel]
  exact processResponseBuffer_resync (magicByte2 :: v :: g) rid json hg (by simp) hrid hjson

/-- A buffer with no magic pair at all (and enough bytes to enter the
loop) is discarded entirely: the accumulator is cleared. -/
theorem processResponseBuffer_clear (buf : List Nat)
    (hg : findPattern2 buf = none) (hlen : MIN_RESPONSE_SIZE ≤ buf.length) :
    processResponseBuffer buf = ([], []) := by
  have hfront : buf.getD 0 0 ≠ magicByte1 ∨ buf.getD 1 0 ≠ magicByte2 := by
    cases buf with
    | nil => simp [MIN_RESPONSE_SIZE] at hlen
    | cons a t =>
      cases t with
      | nil => simp [MIN_RESPONSE_SIZE] at hlen
      | cons b t' =>
        by_cases hc : a = magicByte1 ∧ b = magicByte2
        · exfalso
          unfold findPattern2 at hg
          rw [if_pos hc] at hg
          exact Option.noConfusion hg
        · rw [Decidable.not_and_iff_or_not] at hc
          cases hc with
          | inl h => left; exact h
          | inr h => right; exact h
  show clientParseLoop (buf.length + 1) buf [] = ([], [])
  conv_lhs => unfold clientParseLoop
  rw [if_neg (by omega), if_pos hfront, hg]
  rfl

/-! ## The server aborts on magic/version mismatch -/

/-- With enough buffered bytes, a magic-byte or version mismatch at the
front makes `checkMessageComplete` return a protocol error. -/
theorem checkMessageComplete_protoError (buf : List Nat)
    (h20 : headerSize + versionSize + uuidSize + methodLenSize ≤ buf.length)
    (hbad : buf.getD 0 0 ≠ magicByte1 ∨ buf.getD 1 0 ≠ magicByte2 ∨
      buf.getD 2 0 ≠ protocolVersion) :
    ∃ msg, checkMessageComplete buf = .protoError msg := by
  unfold checkMessageComplete
  rw [if_neg (by omega)]
  by_cases h1 : buf.getD 0 0 ≠ magicByte1 ∨ buf.getD 1 0 ≠ magicByte2
  · rw [if_pos h1]; exact ⟨_, rfl⟩
  · rw [if_neg h1]
    have h2 : buf.getD 2 0 ≠ protocolVersion := by tauto
    rw [if_pos h2]; exact ⟨_, rfl⟩

/-- The server reader never resynchronises: a mismatch at the front of the
accumulator terminates `handleConnection`, closing the connection, and no
frame is extracted — whatever valid frames follow the bad bytes. -/
theorem serverScan_dropped (buf : List Nat)
    (h20 : headerSize + versionSize + uuidSize + methodLenSize ≤ buf.length)
    (hbad : buf.getD 0 0 ≠ magicByte1 ∨ buf.getD 1 0 ≠ magicByte2 ∨
      buf.getD 2 0 ≠ protocolVersion) :
    serverScan buf = .dropped [] := by
  obtain ⟨msg, hmsg⟩ := checkMessageComplete_protoError buf h20 hbad
  unfold serverScan
  conv_lhs => unfold serverScanLoop
  rw [hmsg]
  rfl

/-! ## OTP generation (`otpService.go`, two generations)

The legacy service (`user-service/internal/infrastructure/otpService.go`)
derives the OTP from three random bytes:
`fmt.Sprintf("%06d", int(b[0])<<16|int(b[1])<<8|int(b[2])%1000000)`.
The newer service (`user-service-new`) draws six digits with
`rand.Int(rand.Reader, big.NewInt(10))` each. -/

/-- Go `fmt.Sprintf("%06d", n)`: decimal digits, zero-padded on the left
to a minimum width of six — wider values are printed in full. -/
def sprintf06d (n : Nat) : String :=
  let s := toString n
  String.mk (List.replicate (6 - s.length) '0') ++ s

/-- Legacy `GenerateOTP` applied to the three bytes read from
`crypto/rand`.  Go precedence parses the expression as
`(b0<<16 | b1<<8) | (b2 % 1000000)`. -/
def legacyGenerateOTP (b0 b1 b2 : Nat) : String :=
  sprintf06d ((b0 <<< 16 ||| b1 <<< 8) ||| b2 % 1000000)

/-- New-generation `GenerateOTP` applied to the six uniform digit draws
(each `rand.Int(_, 10)` result, a value in `0..9`); byte `i` of the OTP is
`'0' + draw i`.  The `rand.Int` error fallback is not modelled: the claim
concerns the error-free path. -/
def newGenerateOTP (draws : List Nat) : String :=
  String.mk ((draws.take 6).map fun d => Char.ofNat (d + 48))

/-! ## OTP verification (`VerifyOTP`, two generations) -/

/-- Go `[]byte(s)` for the ASCII strings compared here. -/
def strToBytes (s : String) : List Nat :=
  s.toList.map Char.toNat

/-- Go `crypto/subtle.ConstantTimeCompare`: 0 when the lengths differ,
otherwise the or-fold of the bytewise xor, compared with 0.  (The
constant-time execution itself is a timing property; this is its
functional content.) -/
def constantTimeCompare (x y : List Nat) : Bool :=
  if x.length ≠ y.length then false
  else ((x.zip y).foldl (fun v p => v ||| (p.1 ^^^ p.2)) 0) == 0

/-- New-generation `VerifyOTP`: constant-time comparison of the cached and
provided OTPs; a mismatch returns `(false, wrong OTP verification)`. -/
def newVerifyOTP (providedOTP cacheOtp : String) : Bool × Option String :=
  if constantTimeCompare (strToBytes cacheOtp) (strToBytes providedOTP) then (true, none)
  else (false, some "wrong OTP verification")

/-- Legacy `VerifyOTP`: plain string equality, never an error. -/
def legacyVerifyOTP (providedOTP cacheOtp : String) : Bool × Option String :=
  (cacheOtp == providedOTP, none)

/-- An or of naturals is zero only when both operands are zero. -/
theorem nat_or_eq_zero {x y : Nat} : x ||| y = 0 ↔ x = 0 ∧ y = 0 := by
  constructor
  · intro h
    have hb : ∀ i, x.testBit i = false ∧ y.testBit i = false := by
      intro i
      have hi := congrArg (fun n => Nat.testBit n i) h
      simp only [Nat.testBit_or, Nat.zero_testBit, Bool.or_eq_false_iff] at hi
      exact hi
    constructor
    · apply Nat.eq_of_testBit_eq
      intro i
      simp [(hb i).1]
    · apply Nat.eq_of_testBit_eq
      intro i
      simp [(hb i).2]
  · rintro ⟨rfl, rfl⟩
    rfl

/-- The or-fold of bytewise xors is zero exactly when the seed is zero
and every pair agrees. -/
theorem foldl_or_xor_eq_zero (l : List (Nat × Nat)) (v : Nat) :
    l.foldl (fun v p => v ||| (p.1 ^^^ p.2)) v = 0 ↔ v = 0 ∧ ∀ p ∈ l, p.1 = p.2 := by
  induction l generalizing v with
  | nil => simp
  | cons a t ih =>
    simp only [List.foldl_cons, ih, List.mem_cons]
    constructor
    · rintro ⟨hv, hall⟩
      have hor := nat_or_eq_zero.mp hv
      refine ⟨hor.1, ?_⟩
      intro p hp
      cases hp with
      | inl h => subst h; exact Nat.xor_eq_zero.mp hor.2
      | inr h => exact hall p h
    · rintro ⟨hv, hall⟩
      have ha : a.1 = a.2 := hall a (Or.inl rfl)
      refine ⟨?_, fun p hp => hall p (Or.inr hp)⟩
      rw [hv, ha, Nat.xor_self]
      rfl

/-- The comparator `constantTimeCompare` decides byte-string equality. -/
theorem constantTimeCompare_eq (x y : List Nat) :
    constantTimeCompare x y = true ↔ x = y := by
  unfold constantTimeCompare
  by_cases hlen : x.length = y.length
  · rw [if_neg (by simpa using hlen)]
    rw [beq_iff_eq, foldl_or_xor_eq_zero]
    simp only [true_and]
    constructor
    · intro hall
      apply List.ext_get hlen
      intro i h1 h2
      have hmem : (x.get ⟨i, h1⟩, y.get ⟨i, h2⟩) ∈ x.zip y := by
        rw [List.mem_iff_get]
        refine ⟨⟨i, by rw [List.length_zip]; omega⟩, ?_⟩
        rw [List.get_zip]
      exact hall _ hmem
    · rintro rfl
      intro p hp
      rw [List.mem_iff_get] at hp
      obtain ⟨n, hn⟩ := hp
      rw [List.get_zip] at hn
      rw [← hn]
  · rw [if_pos (by simpa using hlen)]
    simp only [Bool.false_eq_true, false_iff]
    intro h
    exact hlen (by rw [h])

/-! ## Redis key-value model

Both service generations talk to Redis through thin wrappers.  The store
is an association list of string keys; serialised values (JSON snapshots
of the pending user, profile snapshots) are modelled as tagged values,
abstracting the JSON codec.  TTLs are not part of the state: a claim that
needs expiry talks about the key being present or absent. -/

/-- Pending/stored user data (`entities.User` / `domain.User` fields the
claims touch). -/
structure UserData where
  username : String
  email : String
  password : String
  isVerified : Bool
  deriving DecidableEq, Repr

/-- Legacy `domain.User` (old user-service): `id`, `username`, `email`,
`password`, `tokens`. -/
structure LegacyUser where
  id : String
  username : String
  email : String
  password : String
  tokens : List String
  deriving DecidableEq, Repr

inductive CacheVal
  | str (s : String)
  | user (u : UserData)
  | legacyUser (u : LegacyUser)
  deriving DecidableEq, Repr

abbrev Redis := List (String × CacheVal)

def rget (r : Redis) (k : String) : Option CacheVal :=
  List.lookup k r

def rset (r : Redis) (k : String) (v : CacheVal) : Redis :=
  (k, v) :: r

def rdel (r : Redis) (k : String) : Redis :=
  r.filter fun p => p.1 ≠ k

/-! New-generation `RedisService` (`user-service-new`): `SetOTP`/`GetOTP`
take the full key; `SetUserData`/`GetUserData` prefix `user:`;
`DeleteKey` takes the full key. -/

def RedisService.SetOTP (r : Redis) (key otp : String) : Redis :=
  rset r key (.str otp)

/-- A missing key (`redis.Nil`) is `none`. -/
def RedisService.GetOTP (r : Redis) (key : String) : Option String :=
  match rget r key with
  | some (.str s) => some s
  | _ => none

def RedisService.SetUserData (r : Redis) (email : String) (u : UserData) : Redis :=
  rset r ("user:" ++ email) (.user u)

def RedisService.GetUserData (r : Redis) (email : String) : Option UserData :=
  match rget r ("user:" ++ email) with
  | some (.user u) => some u
  | _ => none

def RedisService.DeleteKey (r : Redis) (key : String) : Redis :=
  rdel r key

/-! Legacy `RedisRepo` (old user-service): `SetOTP`/`GetOTP` prefix the
argument with `otp:` themselves; `DeleteKey` takes the raw key;
`SetProfile`/`GetProfile` use the raw user id as key. -/

def RedisRepo.SetOTP (r : Redis) (email otp : String) : Redis :=
  rset r ("otp:" ++ email) (.str otp)

/-- A missing key (`redis.Nil`) is mapped to the empty string by the source. -/
def RedisRepo.GetOTP (r : Redis) (email : String) : String :=
  match rget r ("otp:" ++ email) with
  | some (.str s) => s
  | _ => ""

def RedisRepo.DeleteKey (r : Redis) (key : String) : Redis :=
  rdel r key

def RedisRepo.SetProfile (r : Redis) (userID : String) (u : LegacyUser) : Redis :=
  rset r userID (.legacyUser u)

def RedisRepo.GetProfile (r : Redis) (userID : String) : Option LegacyUser :=
  match rget r userID with
  | some (.legacyUser u) => some u
  | _ => none

/-- Modelled from the spec: the legacy `RedisRepo.SetUserData` is called
by `SendOTPtoUser` but its body is not among the sources; per the spec the
pending user snapshot lives under the cache key `user:<email>`. -/
def RedisRepo.SetUserData (r : Redis) (email : String) (u : UserData) : Redis :=
  rset r ("user:" ++ email) (.user u)

/-- Modelled from the spec: legacy `RedisRepo.GetUserData`, reading the
`user:<email>` snapshot; a missing key yields no user. -/
def RedisRepo.GetUserData (r : Redis) (email : String) : Option UserData :=
  match rget r ("user:" ++ email) with
  | some (.user u) => some u
  | _ => none

/-! ## New-generation `UserService.SendOTP` (`user-service-new` services)

The environment fixes the outcomes of the collaborators for one call: the
persisted usernames (`userRepo.FindByUsername`), the rate-limiter verdict,
the OTP the generator would produce, and the email delivery outcome.  The
idempotency-record short-circuit (which returns a stored response and
dispatches nothing) is not modelled: the claims below concern calls
without a pre-existing idempotency record. -/

structure SendOTPEnv where
  dbUsernames : List String
  rlAllow : Bool
  generatedOtp : String
  emailOk : Bool
  deriving Repr

structure SendOTPOut where
  message : String
  /-- the OTP handed to `otpService.SendOTP` (the dispatched email code) -/
  dispatchedOtp : String
  deriving DecidableEq, Repr

def UserService.SendOTP (env : SendOTPEnv) (r : Redis)
    (username email password : String) : Redis × Except String SendOTPOut :=
  if env.dbUsernames.contains username then
    (r, .error "username already exists")
  else if !env.rlAllow then
    (r, .error "too many OTP requests, please try again later")
  else
    let otpKey := "otp:" ++ email
    let cached := (RedisService.GetOTP r otpKey).getD ""
    let otp := if cached = "" then env.generatedOtp else cached
    let r1 := if cached = "" then RedisService.SetOTP r otpKey env.generatedOtp else r
    if !env.emailOk then
      (RedisService.DeleteKey r1 otpKey, .error "failed to send OTP")
    else
      (RedisService.SetUserData r1 email ⟨username, email, password, false⟩,
        .ok ⟨"OTP sent successfully", otp⟩)

/-! ## New-generation `UserService.VerifyOTP` -/

structure VerifyOTPEnv where
  rlAllow : Bool
  dbCreateOk : Bool
  deriving Repr

def UserService.VerifyOTP (env : VerifyOTPEnv) (r : Redis)
    (email otp : String) : Redis × Except String UserData :=
  if !env.rlAllow then
    (r, .error "too many verification attempts, please try again later")
  else
    let otpKey := "otp:" ++ email
    match RedisService.GetOTP r otpKey with
    | none => (r, .error "OTP expired or not found")
    | some cacheOtp =>
      if cacheOtp = "" then (r, .error "OTP expired or not found")
      else
        let res := newVerifyOTP otp cacheOtp
        match res.2 with
        | some e => (r, .error ("OTP verification failed: " ++ e))
        | none =>
          if !res.1 then (r, .error "invalid OTP")
          else
            match RedisService.GetUserData r email with
            | none => (r, .error "user data expired or not found")
            | some u =>
              let u' := { u with isVerified := true }
              if !env.dbCreateOk then (r, .error "failed to register user")
              else
                let r1 := RedisService.DeleteKey r otpKey
                let r2 := RedisService.DeleteKey r1 ("user:" ++ email)
                (r2, .ok u')

/-! ## Legacy `UserUsecase.SendOTPtoUser` / `UserUsecase.VerifyOtp`
(`user-service/internal/usecase/user.go`)

The legacy flow passes the already prefixed `otpKey = "otp:"+email` to
`RedisRepo.SetOTP`/`GetOTP`, which prefix again; the rate-limiter call in
`SendOTPtoUser` is commented out in the source. -/

structure LegacySendEnv where
  dbUsernames : List String
  generatedOtp : String
  emailOk : Bool
  deriving Repr

def UserUsecase.SendOTPtoUser (env : LegacySendEnv) (r : Redis)
    (u : UserData) : Redis × Option String :=
  if env.dbUsernames.contains u.username then
    (r, some "username already exists")
  else
    let otpKey := "otp:" ++ u.email
    let cached := RedisRepo.GetOTP r otpKey
    let _otp := if cached = "" then env.generatedOtp else cached
    let r1 := if cached = "" then RedisRepo.SetOTP r otpKey env.generatedOtp else r
    if !env.emailOk then
      (RedisRepo.DeleteKey r1 otpKey, some "failed to send OTP")
    else
      (RedisRepo.SetUserData r1 u.email u, none)

structure LegacyVerifyEnv where
  rlAllow : Bool
  registerOk : Bool
  deriving Repr

def UserUsecase.VerifyOtp (env : LegacyVerifyEnv) (r : Redis)
    (email userOtp : String) : Redis × Option String :=
  if !env.rlAllow then
    (r, some "too many verification attempts, please try again later")
  else
    let otpKey := "otp:" ++ email
    let cacheOtp := RedisRepo.GetOTP r otpKey
    if cacheOtp = "" then (r, some "OTP expired or not found")
    else
      let res := legacyVerifyOTP userOtp cacheOtp
      if !res.1 then (r, some "invalid OTP")
      else
        match RedisRepo.GetUserData r email with
        | none => (r, some "user data expired or not found")
        | some _ =>
          if !env.registerOk then (r, some "failed to register user")
          else
            let r1 := RedisRepo.DeleteKey r otpKey
            let r2 := RedisRepo.DeleteKey r1 ("user:" ++ email)
            (r2, none)

/-! ## Profile retrieval

Legacy `UserUsecase.GetProfile` returns a `domain.User`; its database read
runs the `getProfile` query, which selects only `id, username, email` —
the password column is never scanned.  The cache-hit path blanks the
password explicitly. -/

/-- The `getProfile` SQL projection: a row is `(username, email)` keyed by
id; the scanned `domain.User` carries zero values elsewhere. -/
def UserRepo.GetProfile (db : List (String × (String × String))) (userID : String) :
    Option LegacyUser :=
  (List.lookup userID db).map fun row => ⟨userID, row.1, row.2, "", []⟩

def UserUsecase.GetProfile (r : Redis) (db : List (String × (String × String)))
    (userID : String) : Redis × Except String LegacyUser :=
  match RedisRepo.GetProfile r userID with
  | some cachedUser => (r, .ok { cachedUser with password := "" })
  | none =>
    match UserRepo.GetProfile db userID with
    | none => (r, .error "user not found")
    | some user =>
      let r1 := RedisRepo.SetProfile r userID user
      (r1, .ok user)

/-! New-generation mapper (`application/mapper/user_result.go`): the
outbound `UserResult` has no password field at all. -/

structure EntityUser where
  id : String
  createdAt : Nat
  updatedAt : Nat
  username : String
  email : String
  password : String
  isVerified : Bool
  deriving DecidableEq, Repr

structure UserResult where
  id : String
  createdAt : Nat
  updatedAt : Nat
  username : String
  email : String
  isVerified : Bool
  deriving DecidableEq, Repr

def NewUserResultFromEntity (u : EntityUser) : UserResult :=
  ⟨u.id, u.createdAt, u.updatedAt, u.username, u.email, u.isVerified⟩

/-- The JSON object serialised for a `UserResult`, by its struct tags:
`id, created_at, updated_at, username, email, is_verified`. -/
def UserResult.jsonKeys : List String :=
  ["id", "created_at", "updated_at", "username", "email", "is_verified"]

/-! ## `RateLimiter` (`user-service-new` infrastructure)

Per-key `attempts` and `lastTry` maps guarded by a mutex; `Allow` is the
fixed-window decision.  Go map reads default to `0` for a missing
`attempts` entry.  Times are integers so that `now.Sub(lastTry)` is
ordinary subtraction. -/

structure RateLimiter where
  attempts : List (String × Nat)
  lastTry : List (String × Int)
  window : Int
  maxTries : Nat
  deriving Repr

/-- Go `rl.attempts[identifier]`: zero when absent. -/
def RateLimiter.attemptsOf (rl : RateLimiter) (identifier : String) : Nat :=
  (List.lookup identifier rl.attempts).getD 0

def mapSet (m : List (String × Nat)) (k : String) (v : Nat) : List (String × Nat) :=
  (k, v) :: m.filter fun p => p.1 ≠ k

def mapSetI (m : List (String × Int)) (k : String) (v : Int) : List (String × Int) :=
  (k, v) :: m.filter fun p => p.1 ≠ k

/-- Decision `Allow(identifier)` at time `now`: reset to 1 and allow when there is
no record or the window has passed; deny at `maxTries`; else increment and
allow. -/
def RateLimiter.Allow (rl : RateLimiter) (identifier : String) (now : Int) :
    RateLimiter × Bool :=
  match List.lookup identifier rl.lastTry with
  | none =>
    ({ rl with attempts := mapSet rl.attempts identifier 1,
               lastTry := mapSetI rl.lastTry identifier now }, true)
  | some lastTry =>
    if now - lastTry > rl.window then
      ({ rl with attempts := mapSet rl.attempts identifier 1,
                 lastTry := mapSetI rl.lastTry identifier now }, true)
    else if rl.attemptsOf identifier ≥ rl.maxTries then
      (rl, false)
    else
      ({ rl with attempts := mapSet rl.attempts identifier (rl.attemptsOf identifier + 1),
                 lastTry := mapSetI rl.lastTry identifier now }, true)

/-! ## `CircularBuffer` (`service-client.ts`)

The byte array is a total function (out-of-capacity indices are never
read under the invariant); `_length` is called `size` here.  `resize`
copies the live region to the front of a fresh array exactly as the
source does, branching on whether the data wraps; the fresh array's
uninitialised bytes (`allocUnsafe`) are zeros. -/

structure CircularBuffer where
  buf : Nat → Nat
  capacity : Nat
  readOffset : Nat
  writeOffset : Nat
  size : Nat

def CircularBuffer.availableSpace (cb : CircularBuffer) : Nat :=
  cb.capacity - cb.size

/-- JS `Buffer.copy`: overwrite `dst` with `src` starting at `pos`. -/
def writeRange (f : Nat → Nat) (pos : Nat) (src : List Nat) : Nat → Nat :=
  fun j => if pos ≤ j ∧ j < pos + src.length then src.getD (j - pos) 0 else f j

/-- The byte sequence a reader would obtain: `size` bytes starting at
`readOffset`, wrapping at `capacity`. -/
def CircularBuffer.contents (cb : CircularBuffer) : List Nat :=
  (List.range cb.size).map fun i => cb.buf ((cb.readOffset + i) % cb.capacity)

def CircularBuffer.resize (cb : CircularBuffer) (newCapacity : Nat) : CircularBuffer :=
  if newCapacity ≤ cb.capacity then cb
  else
    let copied : List Nat :=
      if 0 < cb.size then
        if cb.readOffset < cb.writeOffset then
          (List.range (cb.writeOffset - cb.readOffset)).map fun i =>
            cb.buf (cb.readOffset + i)
        else
          ((List.range (cb.capacity - cb.readOffset)).map fun i =>
            cb.buf (cb.readOffset + i))
          ++ (List.range cb.writeOffset).map fun i => cb.buf i
      else []
    { buf := writeRange (fun _ => 0) 0 copied
      capacity := newCapacity
      readOffset := 0
      writeOffset := cb.size
      size := cb.size }

def CircularBuffer.write (cb0 : CircularBuffer) (data : List Nat) : CircularBuffer :=
  let cb := if data.length > cb0.availableSpace then
    cb0.resize (max (cb0.capacity * 2) (cb0.capacity + data.length)) else cb0
  let firstWrite := min data.length (cb.capacity - cb.writeOffset)
  let b1 := writeRange cb.buf cb.writeOffset (data.take firstWrite)
  let b2 := if firstWrite < data.length then writeRange b1 0 (data.drop firstWrite) else b1
  { cb with buf := b2
            writeOffset := (cb.writeOffset + data.length) % cb.capacity
            size := cb.size + data.length }

def CircularBuffer.peek (cb : CircularBuffer) (n : Nat) : List Nat :=
  let m := min n cb.size
  let firstRead := min m (cb.capacity - cb.readOffset)
  ((List.range firstRead).map fun i => cb.buf (cb.readOffset + i))
    ++ (List.range (m - firstRead)).map fun i => cb.buf i

def CircularBuffer.read (cb : CircularBuffer) (n : Nat) : List Nat × CircularBuffer :=
  let result := cb.peek n
  (result,
    { cb with readOffset := (cb.readOffset + result.length) % cb.capacity
              size := cb.size - result.length })

def CircularBuffer.skip (cb : CircularBuffer) (n : Nat) : CircularBuffer :=
  let m := min n cb.size
  { cb with readOffset := (cb.readOffset + m) % cb.capacity
            size := cb.size - m }

def CircularBuffer.clear (cb : CircularBuffer) : CircularBuffer :=
  { cb with readOffset := 0, writeOffset := 0, size := 0 }

/-- The `findPattern` method specialised to a two-byte pattern, as used with
`MAGIC_BYTES`: smallest `i` such that the bytes at logical offsets `i`
and `i+1` match. -/
def CircularBuffer.findPattern (cb : CircularBuffer) (p1 p2 : Nat) : Option Nat :=
  (List.range (cb.size - 1)).find? fun i =>
    cb.buf ((cb.readOffset + i) % cb.capacity) = p1 &&
      cb.buf ((cb.readOffset + i + 1) % cb.capacity) = p2

/-- The representation invariant tying the offsets together. -/
structure CBInv (cb : CircularBuffer) : Prop where
  size_le : cb.size ≤ cb.capacity
  ro_lt : cb.readOffset < cb.capacity
  wo_eq : cb.writeOffset = (cb.readOffset + cb.size) % cb.capacity
  cap_pos : 0 < cb.capacity

theorem contents_length (cb : CircularBuffer) : cb.contents.length = cb.size := by
  simp [CircularBuffer.contents]

/-- Distinct logical offsets below the capacity land on distinct physical
positions. -/
theorem posInj {cap ro : Nat} {a b : Nat} (ha : a < cap) (hb : b < cap)
    (h : (ro + a) % cap = (ro + b) % cap) : a = b := by
  have hmod : a ≡ b [MOD cap] := Nat.ModEq.add_left_cancel' ro h
  have h2 : a % cap = b % cap := hmod
  rw [Nat.mod_eq_of_lt ha, Nat.mod_eq_of_lt hb] at h2
  exact h2

/-- Reading a list back by index reproduces it. -/
theorem range_map_getD (l : List Nat) :
    (List.range l.length).map (fun i => l.getD i 0) = l := by
  apply List.ext_get (by simp)
  intro i h1 h2
  rw [List.get_map]
  have hi : i < l.length := h2
  simp only [List.get_range]
  rw [List.getD_eq_get?, List.get?_eq_get hi]
  rfl

/-- Pointwise equal functions give equal range-maps. -/
theorem range_map_congr {n : Nat} {f g : Nat → Nat} (h : ∀ i, i < n → f i = g i) :
    (List.range n).map f = (List.range n).map g := by
  apply List.map_congr_left
  intro i hi
  exact h i (List.mem_range.mp hi)

/-- Resizing to a strictly larger capacity keeps the contents and the
invariant, and moves the live region to the front. -/
theorem resize_spec (cb : CircularBuffer) (newCap : Nat) (h : CBInv cb)
    (hgrow : cb.capacity < newCap) :
    (cb.resize newCap).contents = cb.contents ∧ CBInv (cb.resize newCap) ∧
      (cb.resize newCap).capacity = newCap ∧
      (cb.resize newCap).readOffset = 0 ∧
      (cb.resize newCap).writeOffset = cb.size ∧
      (cb.resize newCap).size = cb.size := by
  obtain ⟨hsz, hro, hwo, hcap⟩ := h
  unfold CircularBuffer.resize
  rw [if_neg (by omega)]
  set copied : List Nat :=
    (if 0 < cb.size then
      if cb.readOffset < cb.writeOffset then
        (List.range (cb.writeOffset - cb.readOffset)).map fun i =>
          cb.buf (cb.readOffset + i)
      else
        ((List.range (cb.capacity - cb.readOffset)).map fun i =>
          cb.buf (cb.readOffset + i))
        ++ (List.range cb.writeOffset).map fun i => cb.buf i
    else []) with hcopied
  have hkey : copied = cb.contents := by
    rw [hcopied]
    by_cases h0 : 0 < cb.size
    · rw [if_pos h0]
      by_cases hlt : cb.readOffset < cb.writeOffset
      · rw [if_pos hlt]
        -- no wrap: readOffset + size < capacity and writeOffset = readOffset + size
        have hnw : cb.readOffset + cb.size < cb.capacity := by
          by_contra hge
          have h2cap : cb.readOffset + cb.size < 2 * cb.capacity := by omega
          have : (cb.readOffset + cb.size) % cb.capacity =
              cb.readOffset + cb.size - cb.capacity := by
            rw [Nat.mod_eq_sub_mod (by omega)]
            exact Nat.mod_eq_of_lt (by omega)
          omega
        have hwo' : cb.writeOffset = cb.readOffset + cb.size := by
          rw [hwo, Nat.mod_eq_of_lt hnw]
        rw [hwo']
        have hdiff : cb.readOffset + cb.size - cb.readOffset = cb.size := by omega
        rw [hdiff]
        unfold CircularBuffer.contents
        apply range_map_congr
        intro i hi
        rw [Nat.mod_eq_of_lt (by omega)]
      · rw [if_neg hlt]
        -- wrap (or exactly full): capacity ≤ readOffset + size
        have hwrap : cb.capacity ≤ cb.readOffset + cb.size := by
          by_contra hlt2
          have : cb.writeOffset = cb.readOffset + cb.size := by
            rw [hwo, Nat.mod_eq_of_lt (by omega)]
          omega
        have hwo' : cb.writeOffset = cb.readOffset + cb.size - cb.capacity := by
          rw [hwo, Nat.mod_eq_sub_mod (by omega)]
          exact Nat.mod_eq_of_lt (by omega)
        unfold CircularBuffer.contents
        have hsplit : cb.size = (cb.capacity - cb.readOffset) + cb.writeOffset := by omega
        rw [hsplit, List.range_add, List.map_append, List.map_map]
        congr 1
        · apply range_map_congr
          intro i hi
          rw [Nat.mod_eq_of_lt (by omega)]
        · apply range_map_congr
          intro i hi
          show cb.buf i =
            cb.buf ((cb.readOffset + (cb.capacity - cb.readOffset + i)) % cb.capacity)
          have harith : cb.readOffset + (cb.capacity - cb.readOffset + i) =
              cb.capacity + i := by omega
          rw [harith, Nat.add_mod_left, Nat.mod_eq_of_lt (by omega)]
    · rw [if_neg h0]
      unfold CircularBuffer.contents
      have : cb.size = 0 := by omega
      rw [this]
      rfl
  have hclen : copied.length = cb.size := by
    rw [hkey, contents_length]
  refine ⟨?_, ⟨by simp; omega, by simp; omega, by simp [Nat.mod_eq_of_lt]; rw [Nat.mod_eq_of_lt (by omega)], by simp; omega⟩, rfl, rfl, rfl, rfl⟩
  show (List.range cb.size).map
      (fun i => writeRange (fun _ => 0) 0 copied ((0 + i) % newCap)) = cb.contents
  rw [← hkey, ← hclen]
  conv_rhs => rw [← range_map_getD copied]
  apply range_map_congr
  intro i hi
  unfold writeRange
  have hmod : (0 + i) % newCap = i := by
    rw [Nat.zero_add, Nat.mod_eq_of_lt (by omega)]
  rw [hmod, if_pos (by omega), Nat.sub_zero]

theorem getD_take (l : List Nat) (n k d : Nat) (h : k < n) :
    (l.take n).getD k d = l.getD k d := by
  rw [List.getD_eq_get?, List.getD_eq_get?, List.get?_take h]

/-- Writing appends the data to the contents and keeps the invariant —
through wrap-around and through the doubling resize. -/
theorem write_spec (cb0 : CircularBuffer) (data : List Nat) (h : CBInv cb0) :
    (cb0.write data).contents = cb0.contents ++ data ∧ CBInv (cb0.write data) := by
  unfold CircularBuffer.write
  set cb := if data.length > cb0.availableSpace then
    cb0.resize (max (cb0.capacity * 2) (cb0.capacity + data.length)) else cb0 with hcb
  have hbase : cb.contents = cb0.contents ∧ CBInv cb ∧
      data.length ≤ cb.capacity - cb.size := by
    rw [hcb]
    by_cases hcond : data.length > cb0.availableSpace
    · rw [if_pos hcond]
      have hgrow : cb0.capacity < max (cb0.capacity * 2) (cb0.capacity + data.length) := by
        have := h.cap_pos
        omega
      obtain ⟨hc, hinv, hcap', hro', hwo', hsz'⟩ := resize_spec cb0 _ h hgrow
      refine ⟨hc, hinv, ?_⟩
      rw [hcap', hsz']
      have := h.size_le
      omega
    · rw [if_neg hcond]
      unfold CircularBuffer.availableSpace at hcond
      exact ⟨rfl, h, by omega⟩
  obtain ⟨hcont0, hinv, hfit⟩ := hbase
  obtain ⟨hsz, hro, hwo, hcap⟩ := hinv
  have hwo_lt : cb.writeOffset < cb.capacity := by
    rw [hwo]; exact Nat.mod_lt _ hcap
  set dlen := data.length with hdlen
  set fw := min dlen (cb.capacity - cb.writeOffset) with hfw
  have hfw_le : fw ≤ dlen := by rw [hfw]; omega
  have hfw_cap : fw ≤ cb.capacity - cb.writeOffset := by rw [hfw]; omega
  have htake_len : (data.take fw).length = fw := by
    simp [hdlen]; omega
  have hdrop_len : (data.drop fw).length = dlen - fw := by
    simp [hdlen]
  set b1 := writeRange cb.buf cb.writeOffset (data.take fw) with hb1
  set b2 := (if fw < dlen then writeRange b1 0 (data.drop fw) else b1) with hb2
  -- physical positions of logical offsets
  have hwj : ∀ j : Nat, (cb.writeOffset + j) % cb.capacity =
      (cb.readOffset + (cb.size + j)) % cb.capacity := by
    intro j
    rw [hwo, Nat.mod_add_mod, ← Nat.add_assoc]
  -- Claim A: the new bytes land at the right positions
  have hA : ∀ j : Nat, j < dlen →
      b2 ((cb.readOffset + (cb.size + j)) % cb.capacity) = data.getD j 0 := by
    intro j hj
    rw [← hwj]
    by_cases hjfw : j < fw
    · have hlt : cb.writeOffset + j < cb.capacity := by omega
      rw [Nat.mod_eq_of_lt hlt]
      have hb1v : b1 (cb.writeOffset + j) = data.getD j 0 := by
        rw [hb1]
        unfold writeRange
        rw [if_pos (by rw [htake_len]; omega)]
        rw [Nat.add_sub_cancel_left]
        exact getD_take data fw j 0 hjfw
      rw [hb2]
      by_cases hflt : fw < dlen
      · rw [if_pos hflt]
        unfold writeRange
        rw [if_neg (by rw [hdrop_len]; omega)]
        exact hb1v
      · rw [if_neg hflt]
        exact hb1v
    · -- wrap: the second copy
      have hflt : fw < dlen := by omega
      have hfw_eq : fw = cb.capacity - cb.writeOffset := by rw [hfw]; omega
      have hge : cb.capacity ≤ cb.writeOffset + j := by omega
      have hlt2 : cb.writeOffset + j < 2 * cb.capacity := by omega
      have hmod : (cb.writeOffset + j) % cb.capacity = cb.writeOffset + j - cb.capacity := by
        rw [Nat.mod_eq_sub_mod hge]
        exact Nat.mod_eq_of_lt (by omega)
      rw [hmod]
      have hpos_eq : cb.writeOffset + j - cb.capacity = j - fw := by omega
      rw [hpos_eq, hb2, if_pos hflt]
      unfold writeRange
      rw [if_pos (by rw [hdrop_len]; omega)]
      rw [Nat.sub_zero, getD_drop]
      congr 1
      omega
  -- Claim B: the old bytes are untouched
  have hB : ∀ i : Nat, i < cb.size →
      b2 ((cb.readOffset + i) % cb.capacity) = cb.buf ((cb.readOffset + i) % cb.capacity) := by
    intro i hi
    set p := (cb.readOffset + i) % cb.capacity with hp
    have hp_lt : p < cb.capacity := by rw [hp]; exact Nat.mod_lt _ hcap
    have hb1p : b1 p = cb.buf p := by
      rw [hb1]
      unfold writeRange
      rw [if_neg ?_]
      rw [htake_len]
      intro ⟨hle, hlt⟩
      set t := p - cb.writeOffset with ht
      have htfw : t < fw := by omega
      have hpt : p = cb.writeOffset + t := by omega
      have : p = (cb.readOffset + (cb.size + t)) % cb.capacity := by
        rw [← hwj]
        rw [Nat.mod_eq_of_lt (by omega)]
        exact hpt
      have heq : i = cb.size + t := by
        apply @posInj cb.capacity cb.readOffset _ _ (by omega) (by omega)
        rw [← hp]
        exact this
      omega
    rw [hb2]
    by_cases hflt : fw < dlen
    · rw [if_pos hflt]
      unfold writeRange
      rw [if_neg ?_]
      · exact hb1p
      rw [hdrop_len]
      intro ⟨_, hlt⟩
      have hfw_eq : fw = cb.capacity - cb.writeOffset := by rw [hfw]; omega
      have : p = (cb.readOffset + (cb.size + (fw + p))) % cb.capacity := by
        rw [← hwj]
        have : cb.writeOffset + (fw + p) = cb.capacity + p := by omega
        rw [this, Nat.add_mod_left, Nat.mod_eq_of_lt hp_lt]
      have heq : i = cb.size + (fw + p) := by
        apply @posInj cb.capacity cb.readOffset _ _ (by omega) (by omega)
        rw [← hp]
        exact this
      omega
    · rw [if_neg hflt]
      exact hb1p
  constructor
  · show (List.range (cb.size + dlen)).map
        (fun i => b2 ((cb.readOffset + i) % cb.capacity)) = cb0.contents ++ data
    rw [← hcont0, List.range_add, List.map_append, List.map_map]
    congr 1
    · unfold CircularBuffer.contents
      apply range_map_congr
      intro i hi
      exact hB i hi
    · have hdata : data = (List.range dlen).map (fun j => data.getD j 0) := by
        rw [hdlen, range_map_getD]
      rw [hdata]
      apply range_map_congr
      intro j hj
      show b2 ((cb.readOffset + (cb.size + j)) % cb.capacity) = data.getD j 0
      exact hA j hj
  · refine ⟨?_, ?_, ?_, ?_⟩
    · show cb.size + dlen ≤ cb.capacity
      omega
    · show cb.readOffset < cb.capacity
      exact hro
    · show (cb.writeOffset + dlen) % cb.capacity =
        (cb.readOffset + (cb.size + dlen)) % cb.capacity
      exact hwj dlen
    · show 0 < cb.capacity
      exact hcap

/-- Peeking `n` returns the first `n` content bytes (all of them when fewer
are buffered). -/
theorem peek_spec (cb : CircularBuffer) (n : Nat) (h : CBInv cb) :
    cb.peek n = cb.contents.take n := by
  obtain ⟨hsz, hro, hwo, hcap⟩ := h
  show ((List.range (min (min n cb.size) (cb.capacity - cb.readOffset))).map
      fun i => cb.buf (cb.readOffset + i))
    ++ ((List.range (min n cb.size - min (min n cb.size) (cb.capacity - cb.readOffset))).map
      fun i => cb.buf i)
    = cb.contents.take n
  unfold CircularBuffer.contents
  rw [← List.map_take, List.take_range]
  set m := min n cb.size with hm
  have hm_le : m ≤ cb.size := by omega
  by_cases hcase : m ≤ cb.capacity - cb.readOffset
  · have hfr : min m (cb.capacity - cb.readOffset) = m := by omega
    rw [hfr]
    have h0 : m - m = 0 := by omega
    rw [h0]
    simp only [List.range_zero, List.map_nil, List.append_nil]
    apply range_map_congr
    intro i hi
    rw [Nat.mod_eq_of_lt (by omega)]
  · have hfr : min m (cb.capacity - cb.readOffset) = cb.capacity - cb.readOffset := by omega
    rw [hfr]
    have hsplit : m = (cb.capacity - cb.readOffset) + (m - (cb.capacity - cb.readOffset)) := by
      omega
    conv_rhs => rw [hsplit]
    rw [List.range_add, List.map_append, List.map_map]
    congr 1
    · apply range_map_congr
      intro i hi
      rw [Nat.mod_eq_of_lt (by omega)]
    · apply range_map_congr
      intro i hi
      show cb.buf i =
        cb.buf ((cb.readOffset + (cb.capacity - cb.readOffset + i)) % cb.capacity)
      have harith : cb.readOffset + (cb.capacity - cb.readOffset + i) = cb.capacity + i := by
        omega
      rw [harith, Nat.add_mod_left, Nat.mod_eq_of_lt (by omega)]

theorem peek_length (cb : CircularBuffer) (n : Nat) (h : CBInv cb) :
    (cb.peek n).length = min n cb.size := by
  rw [peek_spec cb n h, List.length_take, contents_length]

/-- Reading `n` returns the first `n` content bytes and drops them. -/
theorem read_spec (cb : CircularBuffer) (n : Nat) (h : CBInv cb) :
    (cb.read n).1 = cb.contents.take n ∧
      (cb.read n).2.contents = cb.contents.drop n ∧ CBInv (cb.read n).2 := by
  have hpeek := peek_spec cb n h
  have hplen := peek_length cb n h
  obtain ⟨hsz, hro, hwo, hcap⟩ := h
  refine ⟨hpeek, ?_, ?_, ?_, ?_, ?_⟩
  · show (List.range (cb.size - (cb.peek n).length)).map
      (fun i => cb.buf (((cb.readOffset + (cb.peek n).length) % cb.capacity + i) % cb.capacity))
      = cb.contents.drop n
    rw [hplen]
    set m := min n cb.size with hm
    apply List.ext_getElem
    · simp only [List.length_map, List.length_range, List.length_drop, contents_length]
      omega
    intro i h1 h2
    have hi : i < cb.size - m := by
      simpa using h1
    have hni : n + i < cb.contents.length := by
      rw [contents_length]
      rw [List.length_drop, contents_length] at h2
      omega
    rw [← List.getElem_drop' cb.contents hni]
    simp only [List.getElem_map, List.getElem_range]
    unfold CircularBuffer.contents
    simp only [List.getElem_map, List.getElem_range]
    rw [Nat.mod_add_mod]
    congr 2
    have hn_eq : n = m := by
      rw [contents_length] at hni
      omega
    omega
  · show cb.size - (cb.peek n).length ≤ cb.capacity
    omega
  · show (cb.readOffset + (cb.peek n).length) % cb.capacity < cb.capacity
    exact Nat.mod_lt _ hcap
  · show cb.writeOffset =
      ((cb.readOffset + (cb.peek n).length) % cb.capacity + (cb.size - (cb.peek n).length))
        % cb.capacity
    rw [hplen, Nat.mod_add_mod]
    have harith : cb.readOffset + min n cb.size + (cb.size - min n cb.size) =
        cb.readOffset + cb.size := by omega
    rw [harith]
    exact hwo
  · show 0 < cb.capacity
    exact hcap

/-- Skipping `n` is `read n` without the output. -/
theorem skip_eq_read_snd (cb : CircularBuffer) (n : Nat) (h : CBInv cb) :
    cb.skip n = (cb.read n).2 := by
  have hplen := peek_length cb n h
  unfold CircularBuffer.skip CircularBuffer.read
  simp only [hplen]

theorem clear_spec (cb : CircularBuffer) (h : CBInv cb) :
    cb.clear.contents = [] ∧ CBInv cb.clear := by
  refine ⟨rfl, ?_, ?_, ?_, ?_⟩
  · show 0 ≤ cb.capacity
    omega
  · show 0 < cb.capacity
    exact h.cap_pos
  · show (0 : Nat) = (0 + 0) % cb.capacity
    rw [Nat.add_zero, Nat.zero_mod]
  · show 0 < cb.capacity
    exact h.cap_pos

/-! ## FIFO behaviour across operation sequences -/

inductive BufOp
  | write (d : List Nat)
  | read (n : Nat)

def runOps : CircularBuffer → List BufOp → CircularBuffer × List Nat
  | cb, [] => (cb, [])
  | cb, (.write d) :: ops => runOps (cb.write d) ops
  | cb, (.read n) :: ops =>
    let r := cb.read n
    let rest := runOps r.2 ops
    (rest.1, r.1 ++ rest.2)

/-- The bytes written by a sequence of operations, in order. -/
def writesConcat : List BufOp → List Nat
  | [] => []
  | (.write d) :: ops => d ++ writesConcat ops
  | (.read _) :: ops => writesConcat ops

/-- Running any operation sequence: what was read so far plus what is
still buffered is exactly what was initially buffered plus everything
written. -/
theorem runOps_spec (ops : List BufOp) : ∀ cb : CircularBuffer, CBInv cb →
    (runOps cb ops).2 ++ (runOps cb ops).1.contents =
      cb.contents ++ writesConcat ops ∧ CBInv (runOps cb ops).1 := by
  induction ops with
  | nil =>
    intro cb h
    simp [runOps, writesConcat]
    exact h
  | cons op ops ih =>
    intro cb h
    cases op with
    | write d =>
      obtain ⟨hw, hinv⟩ := write_spec cb d h
      have := ih (cb.write d) hinv
      simp only [runOps, writesConcat]
      rw [this.1, hw, List.append_assoc]
      exact ⟨rfl, this.2⟩
    | read n =>
      obtain ⟨hout, hrest, hinv⟩ := read_spec cb n h
      have := ih (cb.read n).2 hinv
      simp only [runOps, writesConcat]
      constructor
      · rw [List.append_assoc, this.1, hrest, hout, ← List.append_assoc,
          List.take_append_drop]
      · exact this.2

/-! ## Redis lookup helpers -/

theorem rget_rset_self (r : Redis) (k : String) (v : CacheVal) :
    rget (rset r k v) k = some v := by
  simp [rget, rset, List.lookup]

theorem rget_rset_other (r : Redis) (k k' : String) (v : CacheVal) (h : k' ≠ k) :
    rget (rset r k v) k' = rget r k' := by
  simp only [rget, rset, List.lookup]
  rw [beq_eq_false_iff_ne.mpr h]

theorem rget_rdel_self (r : Redis) (k : String) : rget (rdel r k) k = none := by
  unfold rget rdel
  induction r with
  | nil => rfl
  | cons p t ih =>
    obtain ⟨a, v⟩ := p
    by_cases hp : a = k
    · simp only [List.filter]
      rw [decide_eq_false (by simpa using hp)]
      exact ih
    · simp only [List.filter]
      rw [decide_eq_true (by simpa using hp)]
      simp only [List.lookup]
      rw [beq_eq_false_iff_ne.mpr (fun he => hp he.symm)]
      exact ih

theorem rget_rdel_other (r : Redis) (k k' : String) (h : k' ≠ k) :
    rget (rdel r k) k' = rget r k' := by
  unfold rget rdel
  induction r with
  | nil => rfl
  | cons p t ih =>
    obtain ⟨a, v⟩ := p
    by_cases hp : a = k
    · simp only [List.filter]
      rw [decide_eq_false (by simpa using hp)]
      rw [ih]
      simp only [List.lookup]
      rw [beq_eq_false_iff_ne.mpr (fun he => h (he.trans hp))]
    · simp only [List.filter]
      rw [decide_eq_true (by simpa using hp)]
      simp only [List.lookup]
      by_cases he : k' = a
      · rw [beq_iff_eq.mpr he]
      · rw [beq_eq_false_iff_ne.mpr he]
        exact ih

theorem user_key_ne_otp_key (e : String) : "user:" ++ e ≠ "otp:" ++ e := by
  intro hcontra
  have hlen := congrArg String.length hcontra
  rw [String.length_append, String.length_append] at hlen
  have h5 : ("user:" : String).length = 5 := rfl
  have h4 : ("otp:" : String).length = 4 := rfl
  rw [h5, h4] at hlen
  omega

/-- After a successful `SendOTP`, the cache holds the dispatched OTP under
`otp:<email>`; the dispatched OTP is non-empty when the generator's output
is; and a non-empty cached OTP is re-used verbatim. -/
theorem sendOTP_ok (env : SendOTPEnv) (r : Redis) (username email password : String)
    (r1 : Redis) (out : SendOTPOut)
    (h : UserService.SendOTP env r username email password = (r1, .ok out)) :
    rget r1 ("otp:" ++ email) = some (.str out.dispatchedOtp) ∧
      (env.generatedOtp ≠ "" → out.dispatchedOtp ≠ "") ∧
      (∀ c, rget r ("otp:" ++ email) = some (.str c) → c ≠ "" → out.dispatchedOtp = c) := by
  unfold UserService.SendOTP at h
  simp only [] at h
  split_ifs at h with hc1 hc2 hc3 hc4 hc5
  · exact absurd (congrArg Prod.snd h) (by simp)
  · exact absurd (congrArg Prod.snd h) (by simp)
  · exact absurd (congrArg Prod.snd h) (by simp)
  · exact absurd (congrArg Prod.snd h) (by simp)
  · -- success with a freshly generated OTP (no cached value)
    have hr1 := congrArg Prod.fst h
    have hout := congrArg Prod.snd h
    simp only [] at hr1 hout
    have hout2 : out = ⟨"OTP sent successfully", env.generatedOtp⟩ := by
      cases hout_eq : out
      rw [hout_eq] at hout
      simp only [Except.ok.injEq, SendOTPOut.mk.injEq] at hout
      simp [hout.1, hout.2]
    subst hout2
    refine ⟨?_, fun hg => hg, ?_⟩
    · rw [← hr1]
      unfold RedisService.SetUserData RedisService.SetOTP
      rw [rget_rset_other _ _ _ _ (fun he => user_key_ne_otp_key email he.symm)]
      exact rget_rset_self _ _ _
    · intro c hcget hcne
      exfalso
      unfold RedisService.GetOTP at hc5
      rw [hcget] at hc5
      simp at hc5
      exact hcne hc5
  · -- success re-using the cached OTP
    have hr1 := congrArg Prod.fst h
    have hout := congrArg Prod.snd h
    simp only [] at hr1 hout
    set cached := (RedisService.GetOTP r ("otp:" ++ email)).getD "" with hcached
    have hout2 : out = ⟨"OTP sent successfully", cached⟩ := by
      cases hout_eq : out
      rw [hout_eq] at hout
      simp only [Except.ok.injEq, SendOTPOut.mk.injEq] at hout
      simp [hout.1, hout.2]
    have hcache_get : rget r ("otp:" ++ email) = some (.str cached) := by
      unfold RedisService.GetOTP at hcached
      cases hg : rget r ("otp:" ++ email) with
      | none => rw [hg] at hcached; simp at hcached; exact absurd hcached hc5
      | some v =>
        cases v with
        | str s => rw [hg] at hcached; simp at hcached; rw [hcached]
        | user u => rw [hg] at hcached; simp at hcached; exact absurd hcached hc5
        | legacyUser u => rw [hg] at hcached; simp at hcached; exact absurd hcached hc5
    subst hout2
    refine ⟨?_, fun _ => hc5, ?_⟩
    · rw [← hr1]
      unfold RedisService.SetUserData
      rw [rget_rset_other _ _ _ _ (fun he => user_key_ne_otp_key email he.symm)]
      exact hcache_get
    · intro c hcget _
      rw [hcget] at hcache_get
      simp only [Option.some.injEq, CacheVal.str.injEq] at hcache_get
      exact hcache_get.symm

/-! # Claim theorems -/

/-- **C8**: `get_profile` never returns a non-empty `password` field: the
legacy usecase blanks it on the cache-hit path and its database query
never selects the column, and the new generation's outbound `UserResult`
serialises no password key at all. -/
theorem C8_get_profile_no_password :
    (∀ (r : Redis) (db : List (String × (String × String))) (userID : String)
      (u : LegacyUser), (UserUsecase.GetProfile r db userID).2 = .ok u →
        u.password = "") ∧
    "password" ∉ UserResult.jsonKeys := by
  constructor
  · intro r db userID u h
    unfold UserUsecase.GetProfile at h
    cases hc : RedisRepo.GetProfile r userID with
    | some cached =>
      rw [hc] at h
      simp only [Except.ok.injEq] at h
      rw [← h]
    | none =>
      rw [hc] at h
      cases hd : UserRepo.GetProfile db userID with
      | none =>
        rw [hd] at h
        simp at h
      | some user =>
        rw [hd] at h
        simp only [Except.ok.injEq] at h
        unfold UserRepo.GetProfile at hd
        cases hl : List.lookup userID db with
        | none => rw [hl] at hd; simp at hd
        | some row =>
          rw [hl] at hd
          simp only [Option.map_some', Option.some.injEq] at hd
          rw [← h, ← hd]
  · decide

/-- **C8** witness: a concrete database row comes back with an empty
password. -/
theorem C8_witness :
    (UserUsecase.GetProfile [] [("id1", ("alice", "a@x"))] "id1").2 =
      .ok ⟨"id1", "alice", "a@x", "", []⟩ ∧
    (⟨"id1", "alice", "a@x", "", []⟩ : LegacyUser).password = "" :=
  ⟨rfl, C8_get_profile_no_password.1 [] [("id1", ("alice", "a@x"))] "id1" _ rfl⟩

theorem lookup_mapSet_self (m : List (String × Nat)) (k : String) (v : Nat) :
    List.lookup k (mapSet m k v) = some v := by
  simp [mapSet, List.lookup]

/-- **C9**: `RateLimiter.Allow` is the claimed fixed-window decision per
key: reset to a count of 1 and allow on a missing record or an expired
window; deny (without state change) once the count reaches `maxTries`;
otherwise increment and allow. -/
theorem C9_rate_limiter_allow (rl : RateLimiter) (key : String) (now : Int) :
    ((List.lookup key rl.lastTry = none ∨
        (∃ lt, List.lookup key rl.lastTry = some lt ∧ now - lt > rl.window)) →
      (rl.Allow key now).2 = true ∧ (rl.Allow key now).1.attemptsOf key = 1) ∧
    (∀ lt, List.lookup key rl.lastTry = some lt → ¬(now - lt > rl.window) →
      rl.attemptsOf key ≥ rl.maxTries →
      (rl.Allow key now).2 = false ∧ (rl.Allow key now).1 = rl) ∧
    (∀ lt, List.lookup key rl.lastTry = some lt → ¬(now - lt > rl.window) →
      rl.attemptsOf key < rl.maxTries →
      (rl.Allow key now).2 = true ∧
        (rl.Allow key now).1.attemptsOf key = rl.attemptsOf key + 1) := by
  refine ⟨?_, ?_, ?_⟩
  · intro h
    unfold RateLimiter.Allow
    cases h with
    | inl hnone =>
      rw [hnone]
      exact ⟨rfl, by unfold RateLimiter.attemptsOf; rw [lookup_mapSet_self]; rfl⟩
    | inr hsome =>
      obtain ⟨lt, hlt, hwin⟩ := hsome
      rw [hlt]
      simp only [if_pos hwin]
      exact ⟨by trivial, by unfold RateLimiter.attemptsOf; rw [lookup_mapSet_self]; rfl⟩
  · intro lt hlt hwin hmax
    unfold RateLimiter.Allow
    rw [hlt]
    simp only [if_neg hwin, if_pos hmax]
    exact ⟨by trivial, by trivial⟩
  · intro lt hlt hwin hmax
    unfold RateLimiter.Allow
    rw [hlt]
    simp only [if_neg hwin, if_neg (by omega : ¬ rl.attemptsOf key ≥ rl.maxTries)]
    exact ⟨by trivial, by unfold RateLimiter.attemptsOf; rw [lookup_mapSet_self]; rfl⟩

/-- **C9** witness: the three decision branches observed on concrete
states. -/
theorem C9_witness :
    ((RateLimiter.Allow ⟨[], [], 900, 5⟩ "a@x" 0).2 = true ∧
      (RateLimiter.Allow ⟨[], [], 900, 5⟩ "a@x" 0).1.attemptsOf "a@x" = 1) ∧
    ((RateLimiter.Allow ⟨[("a@x", 5)], [("a@x", 10)], 900, 5⟩ "a@x" 20).2 = false ∧
      (RateLimiter.Allow ⟨[("a@x", 5)], [("a@x", 10)], 900, 5⟩ "a@x" 20).1 =
        ⟨[("a@x", 5)], [("a@x", 10)], 900, 5⟩) ∧
    ((RateLimiter.Allow ⟨[("a@x", 2)], [("a@x", 10)], 900, 5⟩ "a@x" 20).2 = true ∧
      (RateLimiter.Allow ⟨[("a@x", 2)], [("a@x", 10)], 900, 5⟩ "a@x" 20).1.attemptsOf "a@x" =
        RateLimiter.attemptsOf ⟨[("a@x", 2)], [("a@x", 10)], 900, 5⟩ "a@x" + 1) :=
  ⟨(C9_rate_limiter_allow ⟨[], [], 900, 5⟩ "a@x" 0).1 (Or.inl (by decide)),
   (C9_rate_limiter_allow ⟨[("a@x", 5)], [("a@x", 10)], 900, 5⟩ "a@x" 20).2.1 10
     (by decide) (by decide) (by decide),
   (C9_rate_limiter_allow ⟨[("a@x", 2)], [("a@x", 10)], 900, 5⟩ "a@x" 20).2.2 10
     (by decide) (by decide) (by decide)⟩

/-- **C10**: the `CircularBuffer` is FIFO-correct across wrap-around and
automatic resizing: over any operation sequence starting from an empty
buffer the concatenated read outputs are a prefix of the concatenated
written bytes, and reading everything after a write returns the old
contents followed by the written data. -/
theorem C10_circular_buffer_fifo :
    (∀ (cb : CircularBuffer) (ops : List BufOp), CBInv cb → cb.contents = [] →
      (runOps cb ops).2 <+: writesConcat ops) ∧
    (∀ (cb : CircularBuffer) (d : List Nat), CBInv cb →
      ((cb.write d).read (cb.contents.length + d.length)).1 = cb.contents ++ d) := by
  constructor
  · intro cb ops h hempty
    have hrun := runOps_spec ops cb h
    refine ⟨(runOps cb ops).1.contents, ?_⟩
    rw [hrun.1, hempty]
    rfl
  · intro cb d h
    obtain ⟨hw, hinv⟩ := write_spec cb d h
    obtain ⟨hr, _, _⟩ := read_spec (cb.write d) (cb.contents.length + d.length) hinv
    rw [hr, hw, ← List.length_append]
    exact List.take_length _

/-- **C10** witness: a run that overflows the 4-byte buffer (forcing a
resize) and wraps, and a write/read pair on a fresh buffer. -/
theorem C10_witness :
    (runOps ⟨fun _ => 0, 4, 0, 0, 0⟩
        [.write [1, 2, 3, 4, 5, 6], .read 3, .write [7], .read 10]).2 <+:
      writesConcat [.write [1, 2, 3, 4, 5, 6], .read 3, .write [7], .read 10] ∧
    (((⟨fun _ => 0, 4, 0, 0, 0⟩ : CircularBuffer).write [1, 2]).read
        ((⟨fun _ => 0, 4, 0, 0, 0⟩ : CircularBuffer).contents.length + 2)).1 =
      (⟨fun _ => 0, 4, 0, 0, 0⟩ : CircularBuffer).contents ++ [1, 2] :=
  ⟨C10_circular_buffer_fifo.1 ⟨fun _ => 0, 4, 0, 0, 0⟩ _
      ⟨by decide, by decide, by decide, by decide⟩ rfl,
   C10_circular_buffer_fifo.2 ⟨fun _ => 0, 4, 0, 0, 0⟩ [1, 2]
      ⟨by decide, by decide, by decide, by decide⟩⟩

theorem strToBytes_inj {a b : String} (h : strToBytes a = strToBytes b) : a = b := by
  unfold strToBytes at h
  have hmap : ∀ (l1 l2 : List Char), l1.map Char.toNat = l2.map Char.toNat → l1 = l2 := by
    intro l1
    induction l1 with
    | nil =>
      intro l2 hl
      cases l2 with
      | nil => rfl
      | cons c t => simp at hl
    | cons c t ih =>
      intro l2 hl
      cases l2 with
      | nil => simp at hl
      | cons c2 t2 =>
        simp only [List.map_cons, List.cons.injEq] at hl
        have hc : c = c2 := by
          rw [← Char.ofNat_toNat c, hl.1, Char.ofNat_toNat]
        rw [hc, ih t2 hl.2]
  have hl := hmap _ _ h
  cases a
  cases b
  simp only [String.toList] at hl
  simp [hl]

/-- **C4** (evaluation at the failing input): the legacy `GenerateOTP`
formats a 24-bit value with `%06d`, so the crypto-rand bytes
`0x10 0x00 0x00` produce the seven-digit string `"1048576"` — not a
6-digit OTP — while the new generation's digit-draw construction returns
exactly six digits. -/
theorem C4_legacy_otp_not_six_digits :
    legacyGenerateOTP 16 0 0 = "1048576" ∧
    (legacyGenerateOTP 16 0 0).length = 7 ∧
    newGenerateOTP [4, 1, 7, 8, 2, 9] = "417829" ∧
    (newGenerateOTP [4, 1, 7, 8, 2, 9]).length = 6 := by
  refine ⟨by decide, by decide, by decide, by decide⟩

/-- The new-generation `GenerateOTP` yields exactly six decimal digits,
digit `i` being draw `i` offset from `'0'`. -/
theorem newGenerateOTP_six_digits (draws : List Nat) (h6 : 6 ≤ draws.length)
    (hd : ∀ d ∈ draws, d < 10) :
    (newGenerateOTP draws).length = 6 ∧
      ∀ c ∈ (newGenerateOTP draws).toList, '0' ≤ c ∧ c ≤ '9' := by
  constructor
  · show (String.mk ((draws.take 6).map fun d => Char.ofNat (d + 48))).length = 6
    show ((draws.take 6).map fun d => Char.ofNat (d + 48)).length = 6
    rw [List.length_map, List.length_take]
    omega
  · intro c hc
    have hc' : c ∈ (draws.take 6).map fun d => Char.ofNat (d + 48) := hc
    obtain ⟨d, hdmem, rfl⟩ := List.mem_map.mp hc'
    have hd10 : d < 10 := hd d (List.mem_of_mem_take hdmem)
    constructor
    · interval_cases d <;> decide
    · interval_cases d <;> decide

/-- **C5** counterexample: in the current service a wrong OTP does not
fail with `invalid OTP` — the constant-time comparator returns an error
that the orchestrator wraps as
`OTP verification failed: wrong OTP verification`, so the `invalid OTP`
branch never fires. -/
theorem C5_counterexample :
    (UserService.VerifyOTP ⟨true, true⟩ [("otp:a@x", CacheVal.str "123456")]
        "a@x" "000000").2 =
      .error "OTP verification failed: wrong OTP verification" ∧
    "OTP verification failed: wrong OTP verification" ≠ "invalid OTP" :=
  ⟨by rfl, by decide⟩

/-- **C5** (amended): the new-generation service compares the OTPs with
`subtle.ConstantTimeCompare` — whose functional content is byte-string
equality — but a mismatch surfaces as
`OTP verification failed: wrong OTP verification`; only the legacy
usecase, which compares with plain `==`, fails with `invalid OTP`. -/
theorem C5_constant_time_and_message (provided cached : String)
    (hne : cached ≠ provided) :
    (constantTimeCompare (strToBytes cached) (strToBytes provided) = true ↔
      cached = provided) ∧
    newVerifyOTP provided cached = (false, some "wrong OTP verification") ∧
    legacyVerifyOTP provided cached = (false, none) ∧
    (∀ (env : VerifyOTPEnv) (r : Redis) (email : String), env.rlAllow = true →
      RedisService.GetOTP r ("otp:" ++ email) = some cached → cached ≠ "" →
      (UserService.VerifyOTP env r email provided).2 =
        .error "OTP verification failed: wrong OTP verification") ∧
    (∀ (env : LegacyVerifyEnv) (r : Redis) (email : String), env.rlAllow = true →
      RedisRepo.GetOTP r ("otp:" ++ email) = cached → cached ≠ "" →
      (UserUsecase.VerifyOtp env r email provided).2 = some "invalid OTP") := by
  have hiff : constantTimeCompare (strToBytes cached) (strToBytes provided) = true ↔
      cached = provided := by
    rw [constantTimeCompare_eq]
    constructor
    · exact fun hb => strToBytes_inj hb
    · intro he
      rw [he]
  have hctc : constantTimeCompare (strToBytes cached) (strToBytes provided) = false := by
    cases hb : constantTimeCompare (strToBytes cached) (strToBytes provided) with
    | false => rfl
    | true => exact absurd (hiff.mp hb) hne
  have hnew : newVerifyOTP provided cached = (false, some "wrong OTP verification") := by
    unfold newVerifyOTP
    rw [hctc]
    simp
  refine ⟨hiff, hnew, ?_, ?_, ?_⟩
  · unfold legacyVerifyOTP
    rw [beq_eq_false_iff_ne.mpr hne]
  · intro env r email hrl hget hc
    unfold UserService.VerifyOTP
    rw [hrl]
    simp only [Bool.not_true, Bool.false_eq_true, if_false]
    simp only [hget]
    rw [if_neg hc]
    simp only [hnew]
    rfl
  · intro env r email hrl hget hc
    unfold UserUsecase.VerifyOtp
    rw [hrl]
    simp only [Bool.not_true, Bool.false_eq_true, if_false]
    simp only [hget]
    rw [if_neg hc]
    unfold legacyVerifyOTP
    simp only [beq_eq_false_iff_ne.mpr hne]
    rfl

/-- **C5** witness: the amended claim at the stored OTP `123456` and the
guess `000000`. -/
theorem C5_witness :
    ((constantTimeCompare (strToBytes "123456") (strToBytes "000000") = true ↔
      ("123456" : String) = "000000") ∧
    newVerifyOTP "000000" "123456" = (false, some "wrong OTP verification") ∧
    legacyVerifyOTP "000000" "123456" = (false, none) ∧
    (∀ (env : VerifyOTPEnv) (r : Redis) (email : String), env.rlAllow = true →
      RedisService.GetOTP r ("otp:" ++ email) = some "123456" → ("123456" : String) ≠ "" →
      (UserService.VerifyOTP env r email "000000").2 =
        .error "OTP verification failed: wrong OTP verification") ∧
    (∀ (env : LegacyVerifyEnv) (r : Redis) (email : String), env.rlAllow = true →
      RedisRepo.GetOTP r ("otp:" ++ email) = "123456" → ("123456" : String) ≠ "" →
      (UserUsecase.VerifyOtp env r email "000000").2 = some "invalid OTP")) :=
  C5_constant_time_and_message "000000" "123456" (by decide)

/-- **C6**: a second `send_otp` for the same email while the cached OTP is
still present dispatches the same code — the generator's output for the
second call (`env2.generatedOtp`, arbitrary here) is ignored. -/
theorem C6_send_otp_resends_same_code
    (env1 env2 : SendOTPEnv) (r : Redis) (username email password : String)
    (r1 r2 : Redis) (out1 out2 : SendOTPOut)
    (hgen : env1.generatedOtp ≠ "")
    (h1 : UserService.SendOTP env1 r username email password = (r1, .ok out1))
    (h2 : UserService.SendOTP env2 r1 username email password = (r2, .ok out2)) :
    out2.dispatchedOtp = out1.dispatchedOtp := by
  obtain ⟨hkey1, hne1, _⟩ := sendOTP_ok env1 r username email password r1 out1 h1
  obtain ⟨_, _, hreuse2⟩ := sendOTP_ok env2 r1 username email password r2 out2 h2
  exact hreuse2 out1.dispatchedOtp hkey1 (hne1 hgen)

/-- **C6** witness: two concrete calls; the second call's generator would
produce `999999` but `417829` is re-dispatched. -/
theorem C6_witness :
    UserService.SendOTP ⟨[], true, "417829", true⟩ [] "alice" "a@x" "pw" =
      ([("user:a@x", CacheVal.user ⟨"alice", "a@x", "pw", false⟩),
        ("otp:a@x", CacheVal.str "417829")],
       .ok ⟨"OTP sent successfully", "417829"⟩) ∧
    UserService.SendOTP ⟨[], true, "999999", true⟩
        [("user:a@x", CacheVal.user ⟨"alice", "a@x", "pw", false⟩),
         ("otp:a@x", CacheVal.str "417829")] "alice" "a@x" "pw" =
      ([("user:a@x", CacheVal.user ⟨"alice", "a@x", "pw", false⟩),
        ("user:a@x", CacheVal.user ⟨"alice", "a@x", "pw", false⟩),
        ("otp:a@x", CacheVal.str "417829")],
       .ok ⟨"OTP sent successfully", "417829"⟩) ∧
    (⟨"OTP sent successfully", "417829"⟩ : SendOTPOut).dispatchedOtp =
      (⟨"OTP sent successfully", "417829"⟩ : SendOTPOut).dispatchedOtp :=
  ⟨rfl, rfl,
   C6_send_otp_resends_same_code ⟨[], true, "417829", true⟩ ⟨[], true, "999999", true⟩
     [] "alice" "a@x" "pw" _ _ _ _ (by decide) rfl rfl⟩

/-- **C7** (evaluation at the failing input): in the legacy flow
`SendOTPtoUser` passes the already prefixed `otp:<email>` to
`RedisRepo.SetOTP`, which prefixes again, so the OTP for `a@x` is stored
under `otp:otp:a@x`; the post-verification deletion removes `otp:a@x`, so
the stored OTP entry survives a successful `verify_otp`.  The
new-generation flow deletes exactly the keys it wrote. -/
theorem C7_legacy_deletes_wrong_key :
    UserUsecase.SendOTPtoUser ⟨[], "417829", true⟩ [] ⟨"alice", "a@x", "hunter22", false⟩ =
      ([("user:a@x", CacheVal.user ⟨"alice", "a@x", "hunter22", false⟩),
        ("otp:otp:a@x", CacheVal.str "417829")], none) ∧
    (UserUsecase.VerifyOtp ⟨true, true⟩
        [("user:a@x", CacheVal.user ⟨"alice", "a@x", "hunter22", false⟩),
         ("otp:otp:a@x", CacheVal.str "417829")] "a@x" "417829").2 = none ∧
    rget (UserUsecase.VerifyOtp ⟨true, true⟩
        [("user:a@x", CacheVal.user ⟨"alice", "a@x", "hunter22", false⟩),
         ("otp:otp:a@x", CacheVal.str "417829")] "a@x" "417829").1 "otp:otp:a@x" =
      some (CacheVal.str "417829") ∧
    rget (UserUsecase.VerifyOtp ⟨true, true⟩
        [("user:a@x", CacheVal.user ⟨"alice", "a@x", "hunter22", false⟩),
         ("otp:otp:a@x", CacheVal.str "417829")] "a@x" "417829").1 "otp:a@x" = none ∧
    rget (UserService.VerifyOTP ⟨true, true⟩
        [("user:a@x", CacheVal.user ⟨"alice", "a@x", "hunter22", false⟩),
         ("otp:a@x", CacheVal.str "417829")] "a@x" "417829").1 "otp:a@x" = none ∧
    rget (UserService.VerifyOTP ⟨true, true⟩
        [("user:a@x", CacheVal.user ⟨"alice", "a@x", "hunter22", false⟩),
         ("otp:a@x", CacheVal.str "417829")] "a@x" "417829").1 "user:a@x" = none := by
  refine ⟨by decide, by decide, by decide, by decide, by rfl, by rfl⟩

/-- **C1** counterexample: the dispatcher knows only `register`, `login`
and `ping`; the canonical snake_case methods the claim lists all come back
as `unknown method: <m>` errors. -/
theorem C1_counterexample :
    (handleBinaryMessage (createBinaryRequest (strToBytes "send_otp")
      (strToBytes "{}") (List.replicate 16 7))).2 = .error "unknown method: send_otp" ∧
    (handleBinaryMessage (createBinaryRequest (strToBytes "verify_otp")
      (strToBytes "{}") (List.replicate 16 7))).2 = .error "unknown method: verify_otp" ∧
    (handleBinaryMessage (createBinaryRequest (strToBytes "login_user")
      (strToBytes "{}") (List.replicate 16 7))).2 = .error "unknown method: login_user" ∧
    (handleBinaryMessage (createBinaryRequest (strToBytes "get_profile")
      (strToBytes "{}") (List.replicate 16 7))).2 = .error "unknown method: get_profile" ∧
    (handleBinaryMessage (createBinaryRequest (strToBytes "register_user")
      (strToBytes "{}") (List.replicate 16 7))).2 = .error "unknown method: register_user" := by
  refine ⟨by decide, by decide, by decide, by decide, by decide⟩

/-- **C1** (amended): the server parses every well-formed request frame
and dispatches on the method name; exactly `register`, `login` and `ping`
are handled, and every other method name `m` — the snake_case canonical
names included — yields the error `unknown method: <m>`. -/
theorem C1_dispatch_three_methods (method payload rid : List Nat)
    (hrid : rid.length = 16) (hm : method.length < 256)
    (hp : payload.length < 4294967296) :
    handleBinaryMessage (createBinaryRequest method payload rid) =
      (rid, dispatchMethod (asciiDecode method) payload) ∧
    (∀ (m : String) (content : List Nat), m ≠ "register" → m ≠ "login" → m ≠ "ping" →
      dispatchMethod m content = .error s!"unknown method: {m}") ∧
    dispatchMethod "register" payload = .ok (.register payload) ∧
    dispatchMethod "login" payload = .ok (.login payload) ∧
    dispatchMethod "ping" payload = .ok .ping := by
  refine ⟨handleBinaryMessage_createBinaryRequest method payload rid hrid hm hp,
    ?_, by rfl, by rfl, by rfl⟩
  intro m content h1 h2 h3
  unfold dispatchMethod
  rw [if_neg h1, if_neg h2, if_neg h3]

/-- **C1** witness: the amended dispatch behaviour at a concrete
`send_otp` frame. -/
theorem C1_dispatch_witness :
    (handleBinaryMessage (createBinaryRequest (strToBytes "send_otp") [123, 125]
        (List.replicate 16 7)) =
      (List.replicate 16 7, dispatchMethod (asciiDecode (strToBytes "send_otp")) [123, 125]) ∧
    (∀ (m : String) (content : List Nat), m ≠ "register" → m ≠ "login" → m ≠ "ping" →
      dispatchMethod m content = .error s!"unknown method: {m}") ∧
    dispatchMethod "register" [123, 125] = .ok (.register [123, 125]) ∧
    dispatchMethod "login" [123, 125] = .ok (.login [123, 125]) ∧
    dispatchMethod "ping" [123, 125] = .ok .ping) :=
  C1_dispatch_three_methods (strToBytes "send_otp") [123, 125] (List.replicate 16 7)
    (by decide) (by decide) (by decide)

/-- **C2** counterexample: a server-side accumulator that starts with
three garbage bytes followed by a perfectly valid `ping` frame.  Far from
scanning forward to the frame's magic bytes, the server drops the
connection and extracts nothing — the same frame alone is parsed fine. -/
theorem C2_counterexample :
    serverScan ([9, 9, 9] ++ createBinaryRequest (strToBytes "ping") []
      (List.replicate 16 7)) = .dropped [] ∧
    serverScan (createBinaryRequest (strToBytes "ping") [] (List.replicate 16 7)) =
      .keep [createBinaryRequest (strToBytes "ping") [] (List.replicate 16 7)] [] := by
  refine ⟨by decide, by decide⟩

/-- **C2** (amended): only the client-side receiver resynchronises — on a
magic mismatch it scans to the next magic-byte pair and resumes, on a
version mismatch it first skips one byte (after which the magic scan
takes over), and it clears the accumulator when no pair exists — while
the server-side receiver drops the connection on any magic or version
mismatch. -/
theorem C2_resync_client_only :
    (∀ (g rid json : List Nat), findPattern2 g = none → g ≠ [] →
      rid.length = 16 → json.length ≤ maxBufferSize →
      processResponseBuffer (g ++ createBinaryResponse rid json) = ([(rid, json)], [])) ∧
    (∀ (v : Nat) (g rid json : List Nat), v ≠ protocolVersion →
      findPattern2 (magicByte2 :: v :: g) = none →
      rid.length = 16 → json.length ≤ maxBufferSize →
      processResponseBuffer ((magicByte1 :: magicByte2 :: v :: g) ++
        createBinaryResponse rid json) = ([(rid, json)], [])) ∧
    (∀ buf : List Nat, findPattern2 buf = none → MIN_RESPONSE_SIZE ≤ buf.length →
      processResponseBuffer buf = ([], [])) ∧
    (∀ buf : List Nat, headerSize + versionSize + uuidSize + methodLenSize ≤ buf.length →
      (buf.getD 0 0 ≠ magicByte1 ∨ buf.getD 1 0 ≠ magicByte2 ∨
        buf.getD 2 0 ≠ protocolVersion) →
      serverScan buf = .dropped []) :=
  ⟨processResponseBuffer_resync, processResponseBuffer_version_resync,
   processResponseBuffer_clear, serverScan_dropped⟩

/-- **C2** witness: resynchronisation over three garbage bytes,
resynchronisation after a valid-magic/wrong-version front (skip one byte,
then rescan), clearing of a 23-byte junk accumulator, and the
server-side drop. -/
theorem C2_resync_witness :
    processResponseBuffer ([9, 9, 9] ++ createBinaryResponse (List.replicate 16 7)
      [123, 125]) = ([(List.replicate 16 7, [123, 125])], []) ∧
    processResponseBuffer ([magicByte1, magicByte2, 9] ++
      createBinaryResponse (List.replicate 16 7) [123, 125]) =
      ([(List.replicate 16 7, [123, 125])], []) ∧
    processResponseBuffer (List.replicate 23 9) = ([], []) ∧
    serverScan (List.replicate 20 9) = .dropped [] :=
  ⟨C2_resync_client_only.1 [9, 9, 9] (List.replicate 16 7) [123, 125]
      (by decide) (by decide) (by decide) (by decide),
   C2_resync_client_only.2.1 9 [] (List.replicate 16 7) [123, 125]
      (by decide) (by decide) (by decide) (by decide),
   C2_resync_client_only.2.2.1 (List.replicate 23 9) (by decide) (by decide),
   C2_resync_client_only.2.2.2 (List.replicate 20 9) (by decide) (by decide)⟩

/-- **C3** counterexample: a response frame that really does carry a
method-length byte of 0 at offset 19 is *not* accepted: the parser reads
offset 19 as the low byte of the content length and stalls waiting for a
512-byte body, handing no response to `handleResponse`. -/
theorem C3_counterexample :
    processResponseBuffer ([magicByte1, magicByte2, protocolVersion] ++
        List.replicate 16 7 ++ [0] ++ le32 2 ++ [123, 125]) =
      ([], [magicByte1, magicByte2, protocolVersion] ++
        List.replicate 16 7 ++ [0] ++ le32 2 ++ [123, 125]) := by
  decide

/-- **C3** (amended): response frames omit the method name *and* the
method-length byte entirely — offset 19 holds the low byte of the content
length — and the response parser accepts exactly this shape; request
frames produced by the client do carry the method-length byte and method
name, which the server parser recovers. -/
theorem C3_response_has_no_method_field (rid json : List Nat)
    (hrid : rid.length = 16) (hjson : json.length ≤ maxBufferSize) :
    (createBinaryResponse rid json).length = 23 + json.length ∧
    (createBinaryResponse rid json).getD 19 0 = json.length % 256 ∧
    processResponseBuffer (createBinaryResponse rid json) = ([(rid, json)], []) ∧
    (∀ (method payload : List Nat), method.length < 256 →
      payload.length < 4294967296 →
      handleBinaryMessage (createBinaryRequest method payload rid) =
        (rid, dispatchMethod (asciiDecode method) payload)) := by
  have hflat : createBinaryResponse rid json =
      magicByte1 :: magicByte2 :: protocolVersion ::
        (rid ++ (le32 json.length ++ json)) := by
    simp [createBinaryResponse, List.append_assoc]
  refine ⟨?_, ?_, ?_, ?_⟩
  · rw [hflat]
    simp [le32, hrid]
    omega
  · have hd3 : (createBinaryResponse rid json).drop 3 = rid ++ (le32 json.length ++ json) := by
      rw [hflat]; rfl
    have hd19 : (createBinaryResponse rid json).drop 19 = le32 json.length ++ json := by
      rw [show (19:Nat) = 3 + 16 from rfl, ← List.drop_drop, hd3]
      exact drop_append_left _ _ hrid
    have := getD_drop (createBinaryResponse rid json) 19 0 0
    simp only [Nat.add_zero] at this
    rw [← this, hd19]
    rfl
  · show clientParseLoop ((createBinaryResponse rid json).length + 1)
      (createBinaryResponse rid json) [] = ([(rid, json)], [])
    have hlen : (createBinaryResponse rid json).length = 23 + json.length := by
      rw [hflat]; simp [le32, hrid]; omega
    rw [hlen]
    have hstep := clientParseLoop_response_step (23 + json.length) rid json [] []
      hrid hjson
    rw [List.append_nil] at hstep
    rw [hstep]
    rw [clientParseLoop_short [] (by simp [MIN_RESPONSE_SIZE])]
    rfl
  · intro method payload hm hp
    exact handleBinaryMessage_createBinaryRequest method payload rid hrid hm hp

/-- **C3** witness: the amended shape facts at a concrete response and
request. -/
theorem C3_response_witness :
    (createBinaryResponse (List.replicate 16 7) [123, 125]).length = 23 + 2 ∧
    (createBinaryResponse (List.replicate 16 7) [123, 125]).getD 19 0 = 2 % 256 ∧
    processResponseBuffer (createBinaryResponse (List.replicate 16 7) [123, 125]) =
      ([(List.replicate 16 7, [123, 125])], []) ∧
    handleBinaryMessage (createBinaryRequest (strToBytes "ping") [123, 125]
        (List.replicate 16 7)) =
      (List.replicate 16 7, dispatchMethod (asciiDecode (strToBytes "ping")) [123, 125]) := by
  obtain ⟨h1, h2, h3, h4⟩ := C3_response_has_no_method_field (List.replicate 16 7)
    [123, 125] (by decide) (by decide)
  exact ⟨h1, h2, h3, h4 (strToBytes "ping") [123, 125] (by decide) (by decide)⟩
